import Mathlib

/-!
# Verification of the TRADE streaming analytics and decision engine

This file gives a shallow embedding, in Lean 4, of the core of the TRADE
repository (Go): the bounded market-data store (`pkg/market/market_data.go`),
the metrics engine (`pkg/analyzer/analyzer.go`) and the signal engine
(`pkg/strategy`, the Go `Strategy` type).  Go `float64` arithmetic is
idealised as exact real arithmetic (`ℝ`); Go slices become Lean lists;
`time.Time` values become real numbers measured in hours, with `IsZero`
becoming equality with `0` (the code only ever subtracts two times and
converts the difference to hours, and tests `IsZero`).

Each definition is translated directly from the corresponding Go function
and keeps its name where possible.  Theorems at the end of the file settle
the frozen claims about the specification.
-/

noncomputable section

namespace TradeSpec

/-! ## Data model (`pkg/types/types.go`) -/

/-- Go struct `types.MarketMetrics`.  The field `MarketEfficiencyRatio`
is abbreviated `MER` here (the spec's glossary abbreviation). -/
structure MarketMetrics where
  RealizedVolatility : ℝ
  ATR : ℝ
  RelativeStrength : ℝ
  OrderImbalance : ℝ
  TrendStrength : ℝ
  AvgTrendStrength : ℝ
  MER : ℝ

/-- Go `types.NewMarketMetrics`: neutral defaults. -/
def NewMarketMetrics : MarketMetrics :=
  { RealizedVolatility := 0, ATR := 0, RelativeStrength := 0.5,
    OrderImbalance := 0.5, TrendStrength := 0, AvgTrendStrength := 0, MER := 0 }

/-- Go struct `types.TickData`.  `Timestamp` is measured in hours. -/
structure TickData where
  Price : ℝ
  Volume : ℝ
  IsAsk : Bool
  Timestamp : ℝ

/-- Go struct `types.TradeData`. -/
structure TradeData where
  Active : Bool
  Direction : String
  EntryPrice : ℝ
  EntryTime : ℝ
  HighestPrice : ℝ
  LowestPrice : ℝ
  StopLoss : ℝ
  CurrentPnL : ℝ

/-- Go `types.NewTradeData`: only `Active` is set; Go zero values elsewhere. -/
def NewTradeData : TradeData :=
  { Active := false, Direction := "", EntryPrice := 0, EntryTime := 0,
    HighestPrice := 0, LowestPrice := 0, StopLoss := 0, CurrentPnL := 0 }

/-- Go struct `types.Signal`. -/
structure Signal where
  Action : String
  Side : String
  Price : ℝ
  Time : ℝ
  Reason : String
  ProfitPercent : ℝ
  UpdatedStopLoss : ℝ
  Metrics : Option MarketMetrics

/-- Go `types.NewBuySignal`. -/
def NewBuySignal (price timestamp : ℝ) (metrics : MarketMetrics) : Signal :=
  { Action := "BUY", Side := "buy", Price := price, Time := timestamp,
    Reason := "", ProfitPercent := 0, UpdatedStopLoss := 0, Metrics := some metrics }

/-- Go `types.NewSellSignal`. -/
def NewSellSignal (price timestamp : ℝ) (reason : String)
    (profitPercent stopLoss : ℝ) : Signal :=
  { Action := "CLOSE", Side := "", Price := price, Time := timestamp,
    Reason := reason, ProfitPercent := profitPercent,
    UpdatedStopLoss := stopLoss, Metrics := none }

/-! ## Signal engine (`pkg/strategy`, `checkSellConditions` and callers)

The constants below are the local constants of Go `checkSellConditions`. -/

def trailingStopActivation : ℝ := 1.0
def profitTargetMultiplier : ℝ := 2.5
def trailingStopDistance : ℝ := 1.5
def trendStrengthThreshold : ℝ := -7.0
def minProfit : ℝ := 0.3

/-- Lines 148–151 of the strategy: `atr := metrics.ATR;
if atr < currentPrice*0.001 { atr = currentPrice * 0.001 }`. -/
def effectiveATR (atr currentPrice : ℝ) : ℝ :=
  if atr < currentPrice * 0.001 then currentPrice * 0.001 else atr

/-- `stopDistance := trailingStopDistance * atr` (after the ATR floor). -/
def stopDistanceOf (atr currentPrice : ℝ) : ℝ :=
  trailingStopDistance * effectiveATR atr currentPrice

/-- `stopLoss := currentPrice - stopDistance`. -/
def stopLossOf (atr currentPrice : ℝ) : ℝ :=
  currentPrice - stopDistanceOf atr currentPrice

/-- `takeProfit := currentPrice + profitDistance` where
`profitDistance := stopDistance * profitTargetMultiplier`. -/
def takeProfitOf (atr currentPrice : ℝ) : ℝ :=
  currentPrice + stopDistanceOf atr currentPrice * profitTargetMultiplier

/-- `trailLevel := highestPrice * (1 - trailDistance)` where
`trailDistance := trailingStopActivation * (metrics.ATR / highestPrice)`.
Note the raw `metrics.ATR` is used here, not the floored one. -/
def trailLevelOf (atr highestPrice : ℝ) : ℝ :=
  highestPrice * (1 - trailingStopActivation * (atr / highestPrice))

/-- Go `Strategy.checkSellConditions`.  Returns
`(stopTriggered, reason, stopLoss, profit)`.  The sequence of Go `if`
statements that assign `stopTriggered`/`reason` is modelled by the chain
`s1`–`s4`: each later true condition overwrites the earlier assignment. -/
def checkSellConditions (entryTime entryPrice highestPrice currentPrice timestamp : ℝ)
    (metrics : MarketMetrics) : Bool × String × ℝ × ℝ :=
  let profit := currentPrice / entryPrice - 1
  let stopDistance := stopDistanceOf metrics.ATR currentPrice
  let stopLoss := currentPrice - stopDistance
  let takeProfit := currentPrice + stopDistance * profitTargetMultiplier
  let s1 : Bool × String := if currentPrice ≤ stopLoss then (true, "stop_loss") else (false, "")
  let s2 : Bool × String := if takeProfit ≤ currentPrice then (true, "take_profit") else s1
  let activationThreshold := trailingStopActivation / 100
  let stopLoss2 :=
    if activationThreshold ≤ profit then
      (if stopLoss < trailLevelOf metrics.ATR highestPrice then
        trailLevelOf metrics.ATR highestPrice
      else stopLoss)
    else stopLoss
  let s3 : Bool × String :=
    if entryTime ≠ 0 ∧ 4 < timestamp - entryTime ∧ minProfit / 100 ≤ profit then
      (true, "time_exit")
    else s2
  let s4 : Bool × String :=
    if metrics.TrendStrength < trendStrengthThreshold ∧ minProfit / 100 ≤ profit then
      (true, "trend_reversal")
    else s3
  (s4.1, s4.2, stopLoss2, profit)

/-- Go `Strategy.checkExitConditions`: updates the extrema of the open
position, evaluates sell conditions, and on a trigger emits the CLOSE
signal and deactivates the trade. -/
def checkExitConditions (td : TradeData) (price timestamp : ℝ)
    (metrics : MarketMetrics) : TradeData × Option Signal :=
  let td1 : TradeData :=
    { td with
      HighestPrice := if td.HighestPrice < price then price else td.HighestPrice,
      LowestPrice := if price < td.LowestPrice then price else td.LowestPrice }
  let res := checkSellConditions td1.EntryTime td1.EntryPrice td1.HighestPrice
    price timestamp metrics
  if res.1 then
    ({ td1 with Active := false },
      some (NewSellSignal price timestamp res.2.1 (res.2.2.2 * 100) res.2.2.1))
  else
    (td1, none)

/-- Go `Strategy.checkBuyConditions` with its hardcoded default thresholds. -/
def checkBuyConditions (m : MarketMetrics) : Bool :=
  if m.RealizedVolatility ≤ 0.70 ∧ 0.35 ≤ m.RealizedVolatility ∧
      m.RelativeStrength ≤ 0.75 ∧ 0.25 ≤ m.RelativeStrength ∧
      5.0 ≤ m.TrendStrength ∧ 3.0 ≤ m.AvgTrendStrength ∧
      m.AvgTrendStrength < m.TrendStrength ∧
      0.65 ≤ m.OrderImbalance ∧ 0.93 ≤ m.MER then
    true
  else false

/-- Go `Strategy.checkEntryConditions`. -/
def checkEntryConditions (td : TradeData) (price timestamp : ℝ)
    (metrics : MarketMetrics) : TradeData × Option Signal :=
  if checkBuyConditions metrics then
    ({ td with
        Active := true
        Direction := "buy"
        EntryPrice := price
        EntryTime := timestamp
        HighestPrice := price
        LowestPrice := price },
      some (NewBuySignal price timestamp metrics))
  else
    (td, none)

/-- Go `Strategy.GenerateSignal`: the two-state machine dispatch. -/
def GenerateSignal (td : TradeData) (price timestamp : ℝ)
    (metrics : MarketMetrics) : TradeData × Option Signal :=
  if td.Active then checkExitConditions td price timestamp metrics
  else checkEntryConditions td price timestamp metrics

/-! ## Market data store (`pkg/market/market_data.go`) -/

/-- Go struct `market.MarketData` (the data-storage fields; the websocket,
callback and logger fields are orchestration, out of the embedded core). -/
structure MarketData where
  priceHistory : List ℝ
  volumeHistory : List ℝ
  bidVolume : List ℝ
  askVolume : List ℝ
  timeStamps : List ℝ
  highPrices : List ℝ
  lowPrices : List ℝ
  maxSize : ℕ
  roundNum : ℕ
  prevPrice : ℝ

/-- Go `market.NewMarketData`: empty histories, capacity 1000, `roundNum = 0`. -/
def NewMarketData : MarketData :=
  { priceHistory := [], volumeHistory := [], bidVolume := [], askVolume := [],
    timeStamps := [], highPrices := [], lowPrices := [],
    maxSize := 1000, roundNum := 0, prevPrice := 0 }

/-- Go `math.Round`: round to nearest, half away from zero. -/
def goRound (x : ℝ) : ℝ :=
  if 0 ≤ x then (⌊x + 1 / 2⌋ : ℤ) else -(⌊-x + 1 / 2⌋ : ℤ)

/-- Go method `MarketData.round`:
`shift := math.Pow(10, roundNum); math.Round(num*shift) / shift`. -/
def roundPrice (roundNum : ℕ) (num : ℝ) : ℝ :=
  goRound (num * 10 ^ roundNum) / 10 ^ roundNum

/-- Number of characters in the base-10 representation of a natural number
(`0` takes one character). -/
def digitsLen (n : ℕ) : ℕ := Nat.log 10 n + 1

/-- Length of the part before the decimal point of `fmt.Sprintf("%f", p)`:
`%f` prints `p` with exactly six digits after the decimal point (rounded),
preceded by a minus sign for negative numbers.  Ties in the 6-decimal
rounding are idealised as rounding up in magnitude. -/
def fmtIntLen (p : ℝ) : ℕ :=
  let scaled : ℤ := ⌊|p| * 1000000 + 1 / 2⌋
  (if p < 0 then 1 else 0) + digitsLen (scaled / 1000000).toNat

/-- The precision inferred from the first observed price in Go `AddTick`:
`roundNum = 6 - len(parts[0])` clamped by
`int(math.Max(1, math.Min(8, float64(roundNum))))`.  (The Go `else` branch
for a price string without a `.` is dead code since `%f` always prints a
decimal point.) -/
def inferredRoundNum (p : ℝ) : ℕ :=
  (max 1 (min 8 (6 - (fmtIntLen p : ℤ)))).toNat

/-- Go `MarketData.addToLimitedSlice`: at capacity, drop the single oldest
element (`(*s)[1:]`) before appending the new one. -/
def addToLimitedSlice {α : Type} (maxSize : ℕ) (l : List α) (v : α) : List α :=
  if maxSize ≤ l.length then l.drop 1 ++ [v] else l ++ [v]

/-- Go `MarketData.AddTick`: lazy one-time precision inference, price
rounding, and appends to every bounded sequence (bid or ask volume
according to the tick side). -/
def AddTick (md : MarketData) (tick : TickData) : MarketData :=
  let md1 :=
    if md.roundNum = 0 then
      { md with
        roundNum := inferredRoundNum tick.Price
        prevPrice := roundPrice (inferredRoundNum tick.Price) tick.Price }
    else md
  let price := roundPrice md1.roundNum tick.Price
  let prevHigh := md1.highPrices.getLastD 0
  let newHigh := if md1.highPrices = [] ∨ prevHigh < price then price else prevHigh
  let prevLow := md1.lowPrices.getLastD 0
  let newLow := if md1.lowPrices = [] ∨ price < prevLow then price else prevLow
  { md1 with
    priceHistory := addToLimitedSlice md1.maxSize md1.priceHistory price
    volumeHistory := addToLimitedSlice md1.maxSize md1.volumeHistory tick.Volume
    timeStamps := addToLimitedSlice md1.maxSize md1.timeStamps tick.Timestamp
    highPrices := addToLimitedSlice md1.maxSize md1.highPrices newHigh
    lowPrices := addToLimitedSlice md1.maxSize md1.lowPrices newLow
    bidVolume :=
      if tick.IsAsk then md1.bidVolume
      else addToLimitedSlice md1.maxSize md1.bidVolume tick.Volume
    askVolume :=
      if tick.IsAsk then addToLimitedSlice md1.maxSize md1.askVolume tick.Volume
      else md1.askVolume }

/-- Go `MarketData.Reset`: clears all sequences and the precision state. -/
def Reset (md : MarketData) : MarketData :=
  { md with
    priceHistory := []
    volumeHistory := []
    bidVolume := []
    askVolume := []
    timeStamps := []
    highPrices := []
    lowPrices := []
    prevPrice := 0
    roundNum := 0 }

/-- Go `MarketData.HasMinimumData`: `len(priceHistory) >= minTicks`. -/
def HasMinimumData (md : MarketData) (minTicks : ℕ) : Bool :=
  minTicks ≤ md.priceHistory.length

/-! ## Metrics engine (`pkg/analyzer/analyzer.go`) -/

/-- Go struct `analyzer.Analyzer` (market pointer and logger omitted:
the market store is passed explicitly to the functions that read it). -/
structure Analyzer where
  metrics : MarketMetrics
  trendStrengthWindow : List ℝ
  warmupTicks : ℕ
  warmupComplete : Bool

/-- Go `analyzer.NewAnalyzer`: default warmup period 300 ticks. -/
def NewAnalyzer : Analyzer :=
  { metrics := NewMarketMetrics, trendStrengthWindow := [],
    warmupTicks := 300, warmupComplete := false }

/-- `stats.Mean`. -/
def mean (l : List ℝ) : ℝ := l.sum / l.length

/-- Population variance, as used by `stats.StandardDeviation`. -/
def populationVariance (l : List ℝ) : ℝ :=
  ((l.map fun x => (x - mean l) ^ 2).sum) / l.length

/-- `stats.StandardDeviation` (population standard deviation). -/
def StandardDeviation (l : List ℝ) : ℝ := Real.sqrt (populationVariance l)

/-- The returns loop of `calculateMetrics`:
`returns[i-1] = prices[i]/prices[i-1] - 1`. -/
def returnsOf (prices : List ℝ) : List ℝ :=
  List.zipWith (fun a b => b / a - 1) prices prices.tail

/-- Go `Analyzer.calculateATR`.  `rvOld` is `a.metrics.RealizedVolatility`
at call time (the previous tick's value, read before the update). -/
def calculateATR (rvOld : ℝ) (highPrices lowPrices prices : List ℝ) : ℝ :=
  if highPrices.length < 14 ∨ lowPrices.length < 14 ∨ prices.length < 14 then
    (if prices ≠ [] then rvOld * prices.getLastD 0 / 100 else 0)
  else
    let period : ℕ := 14
    let H := highPrices.drop (highPrices.length - period)
    let L := lowPrices.drop (lowPrices.length - period)
    let C := (prices.take (prices.length - 1)).drop (prices.length - period - 1)
    let trueRange : ℕ → ℝ := fun i =>
      max (H.getD i 0 - L.getD i 0) (max |H.getD i 0 - C.getD i 0| |L.getD i 0 - C.getD i 0|)
    (∑ i ∈ Finset.range period, trueRange i) / (period : ℝ)

/-- The gains/losses accumulation loop of `calculateRelativeStrength`
(`ret > 0` adds to gains, otherwise subtracts from losses); accumulation
order does not affect the two sums. -/
def gainsLosses : List ℝ → ℝ × ℝ
  | [] => (0, 0)
  | r :: rest =>
    let gl := gainsLosses rest
    if 0 < r then (gl.1 + r, gl.2) else (gl.1, gl.2 - r)

/-- Go `Analyzer.calculateRelativeStrength`. -/
def calculateRelativeStrength (returns : List ℝ) : ℝ :=
  if returns.length < 2 then 0.5
  else
    let window := min 500 returns.length
    let windowReturns := returns.drop (returns.length - window)
    let gl := gainsLosses windowReturns
    if gl.1 + gl.2 = 0 then 0.5 else gl.1 / (gl.1 + gl.2)

/-- Go `Analyzer.calculateOrderImbalance`. -/
def calculateOrderImbalance (bidVolume askVolume : List ℝ) : ℝ :=
  let totalBidVol := bidVolume.sum
  let totalAskVol := askVolume.sum
  if totalBidVol + totalAskVol = 0 then 0.5
  else totalBidVol / (totalBidVol + totalAskVol)

/-- Go `linearRegression` (analyzer.go): index-loop sums, closed-form slope
and intercept, correlation with a guarded denominator.  Returns
`(slope, intercept, r)`. -/
def linearRegression (x y : List ℝ) : ℝ × ℝ × ℝ :=
  if x.length ≠ y.length ∨ x.length < 2 then (0, 0, 0)
  else
    let n : ℝ := x.length
    let sumX := ∑ i ∈ Finset.range x.length, x.getD i 0
    let sumY := ∑ i ∈ Finset.range x.length, y.getD i 0
    let sumXY := ∑ i ∈ Finset.range x.length, x.getD i 0 * y.getD i 0
    let sumXX := ∑ i ∈ Finset.range x.length, x.getD i 0 * x.getD i 0
    let sumYY := ∑ i ∈ Finset.range x.length, y.getD i 0 * y.getD i 0
    let slope := (n * sumXY - sumX * sumY) / (n * sumXX - sumX * sumX)
    let intercept := (sumY - slope * sumX) / n
    let numerator := n * sumXY - sumX * sumY
    let denominator :=
      Real.sqrt ((n * sumXX - sumX * sumX) * (n * sumYY - sumY * sumY))
    let r := if denominator = 0 then 0 else numerator / denominator
    (slope, intercept, r)

/-- Go `Analyzer.calculateTrendStrength`: least-squares regression of the
last 30 prices against indices `0..29`, scaled by `r²` and price level. -/
def calculateTrendStrength (prices : List ℝ) : ℝ :=
  if prices.length < 30 then 0
  else
    let windowPrices := prices.drop (prices.length - 30)
    let x := (List.range windowPrices.length).map fun i : ℕ => (i : ℝ)
    let lr := linearRegression x windowPrices
    let meanPrice := mean windowPrices
    lr.1 * lr.2.2 * lr.2.2 * (30 / meanPrice) * 100000

/-- Go `Analyzer.calculateMarketEfficiencyRatio`. -/
def calculateMER (prices : List ℝ) : ℝ :=
  if prices.length < 30 then 0.5
  else
    let netMovement := |prices.getLastD 0 - prices.getD (prices.length - 30) 0|
    let pathLength := ∑ i ∈ Finset.range 29,
      |prices.getD (prices.length - 29 + i) 0 - prices.getD (prices.length - 30 + i) 0|
    if pathLength = 0 then 0.5 else netMovement / pathLength

/-- Go `Analyzer.calculateMetrics`: recomputes all metrics from the current
history and pushes the new trend strength into the bounded window
(capacity 20, evict oldest). -/
def calculateMetrics (a : Analyzer) (md : MarketData) : Analyzer :=
  let prices := md.priceHistory
  if prices.length < 2 then a
  else
    let returns := returnsOf prices
    let realizedVolatility := StandardDeviation returns * Real.sqrt (252 * 1440) * 100
    let atr := calculateATR a.metrics.RealizedVolatility md.highPrices md.lowPrices prices
    let relativeStrength := calculateRelativeStrength returns
    let orderImbalance := calculateOrderImbalance md.bidVolume md.askVolume
    let trendStrength := calculateTrendStrength prices
    let window1 :=
      if 20 ≤ a.trendStrengthWindow.length then a.trendStrengthWindow.drop 1
      else a.trendStrengthWindow
    let window2 := window1 ++ [trendStrength]
    let avgTrendStrength :=
      if 7 ≤ window2.length then window2.sum / (window2.length : ℝ) else 0
    let mer := calculateMER prices
    { a with
      metrics :=
        { RealizedVolatility := realizedVolatility
          ATR := atr
          RelativeStrength := relativeStrength
          OrderImbalance := orderImbalance
          TrendStrength := trendStrength
          AvgTrendStrength := avgTrendStrength
          MER := mer }
      trendStrengthWindow := window2 }

/-- Go `Analyzer.ProcessTick`: no-op below 20 ticks of history; otherwise
recompute everything, then latch the warmup flag once the warmup threshold
is reached; returns a copy of the metrics. -/
def ProcessTick (a : Analyzer) (md : MarketData) : Analyzer × Option MarketMetrics :=
  if md.priceHistory.length < 20 then (a, none)
  else
    let a1 := calculateMetrics a md
    let a2 :=
      if ¬a1.warmupComplete ∧ a1.warmupTicks ≤ md.priceHistory.length then
        { a1 with warmupComplete := true }
      else a1
    (a2, some a2.metrics)

/-! ## Pipeline composition (`pkg/manager`): tick → store update → metric
recompute, via the tick callback registered by the manager. -/

/-- One pipeline step: `AddTick` into the store, then `ProcessTick` on the
updated store (the callback runs synchronously inside `AddTick`). -/
def pipelineStep (s : MarketData × Analyzer) (t : TickData) :
    (MarketData × Analyzer) × Option MarketMetrics :=
  let md := AddTick s.1 t
  let pa := ProcessTick s.2 md
  ((md, pa.1), pa.2)

/-- Run the pipeline over a tick sequence, collecting the per-tick metric
snapshots (`none` when `ProcessTick` declined to compute). -/
def runTicks : MarketData × Analyzer → List TickData →
    (MarketData × Analyzer) × List (Option MarketMetrics)
  | s, [] => (s, [])
  | s, t :: ts =>
    let st := pipelineStep s t
    let rest := runTicks st.1 ts
    (rest.1, st.2 :: rest.2)

/-- The initial pipeline state. -/
def initState : MarketData × Analyzer := (NewMarketData, NewAnalyzer)

/-- An externally visible event: a market tick, or a `Reset()` of the
store (the analyzer has no reset). -/
inductive Event where
  | tick (t : TickData) : Event
  | reset : Event

/-- Event semantics: ticks run the pipeline step, `Reset()` clears the
store only. -/
def eventStep (s : MarketData × Analyzer) : Event → MarketData × Analyzer
  | Event.tick t => (pipelineStep s t).1
  | Event.reset => (Reset s.1, s.2)

/-- Run a sequence of events. -/
def runEvents (s : MarketData × Analyzer) (es : List Event) : MarketData × Analyzer :=
  es.foldl eventStep s

/-! ## Claim C1: priority of the exit predicates -/

/-- Claim C1 (amended) — While a position is open the exit predicates are
evaluated in the fixed textual order stop-loss, take-profit, time-exit,
trend-reversal, but each later true predicate OVERWRITES the reason of an
earlier one, so the emitted CLOSE reason is that of the LATEST true
predicate in this order (the claim's "first true wins" is the reverse of
what the code does). -/
theorem exit_reason_last_true_wins (et ep hp cp ts : ℝ) (m : MarketMetrics) :
    ((checkSellConditions et ep hp cp ts m).1 = true ↔
      (cp ≤ cp - stopDistanceOf m.ATR cp ∨
        cp + stopDistanceOf m.ATR cp * profitTargetMultiplier ≤ cp ∨
        (et ≠ 0 ∧ 4 < ts - et ∧ minProfit / 100 ≤ cp / ep - 1) ∨
        (m.TrendStrength < trendStrengthThreshold ∧ minProfit / 100 ≤ cp / ep - 1))) ∧
    ((m.TrendStrength < trendStrengthThreshold ∧ minProfit / 100 ≤ cp / ep - 1) →
      (checkSellConditions et ep hp cp ts m).2.1 = "trend_reversal") ∧
    (¬(m.TrendStrength < trendStrengthThreshold ∧ minProfit / 100 ≤ cp / ep - 1) →
      (et ≠ 0 ∧ 4 < ts - et ∧ minProfit / 100 ≤ cp / ep - 1) →
      (checkSellConditions et ep hp cp ts m).2.1 = "time_exit") ∧
    (¬(m.TrendStrength < trendStrengthThreshold ∧ minProfit / 100 ≤ cp / ep - 1) →
      ¬(et ≠ 0 ∧ 4 < ts - et ∧ minProfit / 100 ≤ cp / ep - 1) →
      cp + stopDistanceOf m.ATR cp * profitTargetMultiplier ≤ cp →
      (checkSellConditions et ep hp cp ts m).2.1 = "take_profit") ∧
    (¬(m.TrendStrength < trendStrengthThreshold ∧ minProfit / 100 ≤ cp / ep - 1) →
      ¬(et ≠ 0 ∧ 4 < ts - et ∧ minProfit / 100 ≤ cp / ep - 1) →
      ¬(cp + stopDistanceOf m.ATR cp * profitTargetMultiplier ≤ cp) →
      cp ≤ cp - stopDistanceOf m.ATR cp →
      (checkSellConditions et ep hp cp ts m).2.1 = "stop_loss") := by
  unfold checkSellConditions
  dsimp only
  split_ifs <;> simp_all

/-- Claim C1 counterexample — at entry price 100, current price 101, entry
time 1h, current time 6h (elapsed 5h > 4h, profit 1% ≥ 0.3%) and metrics
with `ATR = 1`, `TrendStrength = -10 < -7`: the time-exit predicate and the
trend-reversal predicate are both true while the stop-loss and take-profit
predicates are false, yet the emitted reason is `"trend_reversal"`, not the
claimed earliest true predicate `"time_exit"`. -/
theorem exit_reason_first_true_refuted :
    ((1 : ℝ) ≠ 0 ∧ 4 < (6 : ℝ) - 1 ∧ minProfit / 100 ≤ (101 : ℝ) / 100 - 1) ∧
    ((-10 : ℝ) < trendStrengthThreshold ∧ minProfit / 100 ≤ (101 : ℝ) / 100 - 1) ∧
    ¬((101 : ℝ) ≤ 101 - stopDistanceOf 1 101) ∧
    ¬((101 : ℝ) + stopDistanceOf 1 101 * profitTargetMultiplier ≤ 101) ∧
    (checkSellConditions 1 100 101 101 6 ⟨0, 1, 0.5, 0.5, -10, 0, 0.5⟩).1 = true ∧
    (checkSellConditions 1 100 101 101 6 ⟨0, 1, 0.5, 0.5, -10, 0, 0.5⟩).2.1 =
      "trend_reversal" ∧
    (checkSellConditions 1 100 101 101 6 ⟨0, 1, 0.5, 0.5, -10, 0, 0.5⟩).2.1 ≠
      "time_exit" := by
  have h : (checkSellConditions 1 100 101 101 6 ⟨0, 1, 0.5, 0.5, -10, 0, 0.5⟩).2.1 =
      "trend_reversal" := by
    norm_num [checkSellConditions, stopDistanceOf, effectiveATR, trailLevelOf,
      trailingStopActivation, profitTargetMultiplier, trailingStopDistance,
      trendStrengthThreshold, minProfit]
  refine ⟨by norm_num [minProfit], by norm_num [trendStrengthThreshold, minProfit],
    by norm_num [stopDistanceOf, effectiveATR, trailingStopDistance],
    by norm_num [stopDistanceOf, effectiveATR, trailingStopDistance, profitTargetMultiplier],
    ?_, h, by rw [h]; decide⟩
  norm_num [checkSellConditions, stopDistanceOf, effectiveATR, trailLevelOf,
    trailingStopActivation, profitTargetMultiplier, trailingStopDistance,
    trendStrengthThreshold, minProfit]

/-- Witness for `exit_reason_last_true_wins`: concrete instance where only
the trend-reversal predicate fires. -/
theorem exit_reason_last_true_wins_witness :
    (checkSellConditions 1 100 101 101 2 ⟨0, 1, 0.5, 0.5, -10, 0, 0.5⟩).2.1 =
      "trend_reversal" := by
  refine (exit_reason_last_true_wins 1 100 101 101 2 ⟨0, 1, 0.5, 0.5, -10, 0, 0.5⟩).2.1 ?_
  norm_num [trendStrengthThreshold, minProfit]

/-! ## Claim C2: trailing stop behaviour -/

/-- Claim C2 (amended) — When the trailing stop engages on a tick
(profit ≥ the 1% activation threshold) and
`trailLevel = highest * (1 - activation*(ATR/highest))` exceeds that tick's
freshly recomputed stop-loss `price - stopDistance`, the stop-loss
REPORTED FOR THAT TICK is raised to `trailLevel`.  The raise is per-tick
only: the stored position state is never updated by exit evaluation
(`TradeData.StopLoss` is unchanged), and since the stop-loss is recomputed
from the current price on every tick, the raised level does not persist
and may be lower on a later tick of the same open position. -/
theorem trailing_stop_per_tick_raise (et ep hp cp ts : ℝ) (m : MarketMetrics)
    (hact : trailingStopActivation / 100 ≤ cp / ep - 1)
    (hgt : cp - stopDistanceOf m.ATR cp < trailLevelOf m.ATR hp) :
    (checkSellConditions et ep hp cp ts m).2.2.1 = trailLevelOf m.ATR hp ∧
    cp - stopDistanceOf m.ATR cp ≤ (checkSellConditions et ep hp cp ts m).2.2.1 ∧
    ∀ (td : TradeData) (p t : ℝ) (m' : MarketMetrics),
      ((checkExitConditions td p t m').1).StopLoss = td.StopLoss := by
  refine ⟨?_, ?_, ?_⟩
  · unfold checkSellConditions
    dsimp only
    rw [if_pos hact, if_pos hgt]
  · unfold checkSellConditions
    dsimp only
    rw [if_pos hact, if_pos hgt]
    exact le_of_lt hgt
  · intro td p t m'
    unfold checkExitConditions
    dsimp only
    split_ifs <;> rfl

/-- Claim C2 counterexample — ticks of one open position (entry 100,
entry time 1h, `ATR = 1`, `TrendStrength = 0`): at price 102 the trailing
stop engages (profit 2% ≥ 1%) and the tick's stop-loss is raised to 101,
the position stays open; on the next tick at price 100.5 (highest still
102) the recomputed stop-loss is 99 < 101 — the raised level did not
persist and the stop-loss DECREASED across ticks of the open position. -/
theorem trailing_stop_not_persistent_refuted :
    (checkSellConditions 1 100 102 102 1.5 ⟨0, 1, 0.5, 0.5, 0, 0, 0.5⟩).1 = false ∧
    (checkSellConditions 1 100 102 102 1.5 ⟨0, 1, 0.5, 0.5, 0, 0, 0.5⟩).2.2.1 = 101 ∧
    (checkSellConditions 1 100 102 100.5 2 ⟨0, 1, 0.5, 0.5, 0, 0, 0.5⟩).1 = false ∧
    (checkSellConditions 1 100 102 100.5 2 ⟨0, 1, 0.5, 0.5, 0, 0, 0.5⟩).2.2.1 = 99 ∧
    (checkSellConditions 1 100 102 100.5 2 ⟨0, 1, 0.5, 0.5, 0, 0, 0.5⟩).2.2.1 <
      (checkSellConditions 1 100 102 102 1.5 ⟨0, 1, 0.5, 0.5, 0, 0, 0.5⟩).2.2.1 := by
  norm_num [checkSellConditions, stopDistanceOf, effectiveATR, trailLevelOf,
    trailingStopActivation, profitTargetMultiplier, trailingStopDistance,
    trendStrengthThreshold, minProfit]

/-- Witness for `trailing_stop_per_tick_raise`: the scenario tick at price
102 on entry 100 with `ATR = 1`. -/
theorem trailing_stop_per_tick_raise_witness :
    (checkSellConditions 1 100 102 102 1.5 ⟨0, 1, 0.5, 0.5, 0, 0, 0.5⟩).2.2.1 =
      trailLevelOf 1 102 := by
  exact (trailing_stop_per_tick_raise 1 100 102 102 1.5 ⟨0, 1, 0.5, 0.5, 0, 0, 0.5⟩
    (by norm_num [trailingStopActivation])
    (by norm_num [stopDistanceOf, effectiveATR, trailLevelOf, trailingStopActivation,
      trailingStopDistance])).1

/-! ## Claim C3: the worked scenario -/

/-- Claim C3 (amended) — In the scenario `entryPrice = 100`, `ATR = 1`,
distance factor 1.5: a tick at price 100 yields `stopDistance = 1.5`,
`stopLoss = 98.5`, `takeProfit = 103.75` and no exit; after the price
rises to 102 (profit 2% ≥ 1% activation) the trailing stop engages and
the tick's stop-loss is raised to `102*(1 - 1*(1/102)) = 101`; but a
subsequent tick AT the raised level 101 emits NO CLOSE signal: the
stop-loss is recomputed from that tick's own price (101 - 1.5 = 99.5),
so the stop-loss predicate `101 ≤ 99.5` is false and no `"stop_loss"`
exit occurs (such an exit is unreachable). -/
theorem scenario_trailing_stop (m : MarketMetrics) (hATR : m.ATR = 1)
    (hTS : m.TrendStrength = 0) :
    stopDistanceOf m.ATR 100 = 1.5 ∧
    stopLossOf m.ATR 100 = 98.5 ∧
    takeProfitOf m.ATR 100 = 103.75 ∧
    (checkSellConditions 1 100 100 100 2 m).1 = false ∧
    (checkSellConditions 1 100 100 100 2 m).2.2.1 = 98.5 ∧
    trailLevelOf m.ATR 102 = 101 ∧
    (checkSellConditions 1 100 102 102 2 m).1 = false ∧
    (checkSellConditions 1 100 102 102 2 m).2.2.1 = 101 ∧
    (checkSellConditions 1 100 102 101 2.5 m).1 = false ∧
    (checkSellConditions 1 100 102 101 2.5 m).2.1 ≠ "stop_loss" := by
  have e : (checkSellConditions 1 100 102 101 2.5 m).2.1 = "" := by
    norm_num [checkSellConditions, stopDistanceOf, effectiveATR, trailLevelOf,
      trailingStopActivation, profitTargetMultiplier, trailingStopDistance,
      trendStrengthThreshold, minProfit, hATR, hTS]
  refine ⟨?_, ?_, ?_, ?_, ?_, ?_, ?_, ?_, ?_, by rw [e]; decide⟩ <;>
    norm_num [checkSellConditions, stopDistanceOf, stopLossOf, takeProfitOf,
      effectiveATR, trailLevelOf, trailingStopActivation, profitTargetMultiplier,
      trailingStopDistance, trendStrengthThreshold, minProfit, hATR, hTS]

/-- Claim C3 counterexample — with metrics `ATR = 1`, `TrendStrength = 0`,
the subsequent tick of the open position (entry 100, highest 102) at
price 101 — exactly the raised stop-loss level — triggers no exit at all
(`stopTriggered = false`), contradicting the claimed CLOSE with reason
`"stop_loss"`. -/
theorem scenario_no_stop_loss_close_refuted :
    (checkSellConditions 1 100 102 101 2.5 ⟨0, 1, 0.5, 0.5, 0, 0, 0.5⟩).1 = false ∧
    (checkSellConditions 1 100 102 101 2.5 ⟨0, 1, 0.5, 0.5, 0, 0, 0.5⟩).2.1 ≠
      "stop_loss" := by
  have e : (checkSellConditions 1 100 102 101 2.5 ⟨0, 1, 0.5, 0.5, 0, 0, 0.5⟩).2.1 = "" := by
    norm_num [checkSellConditions, stopDistanceOf, effectiveATR, trailLevelOf,
      trailingStopActivation, profitTargetMultiplier, trailingStopDistance,
      trendStrengthThreshold, minProfit]
  refine ⟨?_, by rw [e]; decide⟩
  norm_num [checkSellConditions, stopDistanceOf, effectiveATR, trailLevelOf,
    trailingStopActivation, profitTargetMultiplier, trailingStopDistance,
    trendStrengthThreshold, minProfit]

/-- Witness for `scenario_trailing_stop`: instantiated at the concrete
metrics record of the scenario. -/
theorem scenario_trailing_stop_witness :
    trailLevelOf (⟨0, 1, 0.5, 0.5, 0, 0, 0.5⟩ : MarketMetrics).ATR 102 = 101 := by
  exact (scenario_trailing_stop ⟨0, 1, 0.5, 0.5, 0, 0, 0.5⟩ rfl rfl).2.2.2.2.2.1

/-! ## Claim C4: stop-loss and take-profit exits are unreachable -/

/-- On any tick where the stop-loss and take-profit predicates are false
and an exit triggered, the reason can only be `"time_exit"` or
`"trend_reversal"`. -/
lemma checkSell_reason_of_trig (et ep hp cp ts : ℝ) (m : MarketMetrics)
    (h1 : ¬(cp ≤ cp - stopDistanceOf m.ATR cp))
    (h2 : ¬(cp + stopDistanceOf m.ATR cp * profitTargetMultiplier ≤ cp))
    (ht : (checkSellConditions et ep hp cp ts m).1 = true) :
    (checkSellConditions et ep hp cp ts m).2.1 = "time_exit" ∨
    (checkSellConditions et ep hp cp ts m).2.1 = "trend_reversal" := by
  unfold checkSellConditions at ht ⊢
  dsimp only at ht ⊢
  split_ifs at ht ⊢ <;> simp_all

/-- A CLOSE signal emitted by `checkExitConditions` carries the reason of
the underlying `checkSellConditions` evaluation (at the updated highest
price), and that evaluation triggered. -/
lemma checkExit_signal_reason (td : TradeData) (p t : ℝ) (m : MarketMetrics)
    (sig : Signal) (hsig : (checkExitConditions td p t m).2 = some sig) :
    ∃ hp',
      sig.Reason = (checkSellConditions td.EntryTime td.EntryPrice hp' p t m).2.1 ∧
      (checkSellConditions td.EntryTime td.EntryPrice hp' p t m).1 = true := by
  unfold checkExitConditions at hsig
  dsimp only at hsig
  split_ifs at hsig <;>
    · simp only [Option.some_inj] at hsig
      refine ⟨_, ?_, by assumption⟩
      rw [← hsig]
      try rfl

/-- Claim C4 — For every tick on an open position with positive current
price: the engine recomputes `stopDistance = 1.5 * max(ATR, 0.001*price)`,
which is strictly positive, and derives stop-loss and take-profit from the
CURRENT price, so the predicates `price ≤ stopLoss` and
`price ≥ takeProfit` are both false on every tick; consequently a CLOSE
signal with reason `"stop_loss"` or `"take_profit"` is never emitted —
only `"time_exit"` and `"trend_reversal"` exits are reachable. -/
theorem no_price_triggered_exits (td : TradeData) (cp ts : ℝ) (m : MarketMetrics)
    (hcp : 0 < cp) :
    effectiveATR m.ATR cp = max m.ATR (cp * 0.001) ∧
    0 < stopDistanceOf m.ATR cp ∧
    ¬(cp ≤ cp - stopDistanceOf m.ATR cp) ∧
    ¬(cp + stopDistanceOf m.ATR cp * profitTargetMultiplier ≤ cp) ∧
    ∀ sig : Signal, (checkExitConditions td cp ts m).2 = some sig →
      sig.Reason = "time_exit" ∨ sig.Reason = "trend_reversal" := by
  have hmax : effectiveATR m.ATR cp = max m.ATR (cp * 0.001) := by
    unfold effectiveATR
    rcases lt_or_le m.ATR (cp * 0.001) with h | h
    · rw [if_pos h, max_eq_right h.le]
    · rw [if_neg (not_lt.mpr h), max_eq_left h]
  have hpos : 0 < stopDistanceOf m.ATR cp := by
    rw [stopDistanceOf, hmax, trailingStopDistance]
    have h1 : (0 : ℝ) < cp * 0.001 := by positivity
    have h2 : (0 : ℝ) < max m.ATR (cp * 0.001) := lt_max_of_lt_right h1
    nlinarith
  have hP1 : ¬(cp ≤ cp - stopDistanceOf m.ATR cp) := by linarith
  have hP2 : ¬(cp + stopDistanceOf m.ATR cp * profitTargetMultiplier ≤ cp) := by
    rw [profitTargetMultiplier]; nlinarith
  refine ⟨hmax, hpos, hP1, hP2, ?_⟩
  intro sig hsig
  obtain ⟨hp', hre, htrig⟩ := checkExit_signal_reason td cp ts m sig hsig
  rw [hre]
  exact checkSell_reason_of_trig td.EntryTime td.EntryPrice hp' cp ts m hP1 hP2 htrig

/-- Witness for `no_price_triggered_exits`: concrete instance at price 101
with `ATR = 1` and a trade state. -/
theorem no_price_triggered_exits_witness :
    ¬((101 : ℝ) ≤ 101 - stopDistanceOf (1 : ℝ) 101) := by
  exact (no_price_triggered_exits NewTradeData 101 0 ⟨0, 1, 0.5, 0.5, 0, 0, 0.5⟩
    (by norm_num)).2.2.1

/-! ## Claim C5: bounded history, FIFO eviction -/

/-- `addToLimitedSlice` preserves the capacity bound (capacity ≥ 1). -/
lemma addToLimitedSlice_length_le {α : Type} (n : ℕ) (l : List α) (v : α)
    (hn : 1 ≤ n) (h : l.length ≤ n) :
    (addToLimitedSlice n l v).length ≤ n := by
  unfold addToLimitedSlice
  split_ifs with hc
  · simp only [List.length_append, List.length_drop, List.length_singleton]
    omega
  · simp only [List.length_append, List.length_singleton]
    omega

/-- The conjunction of capacity facts preserved by `AddTick`:
fixed capacity 1000 and all seven sequences within it. -/
def capInvariant (md : MarketData) : Prop :=
  md.maxSize = 1000 ∧
  md.priceHistory.length ≤ 1000 ∧ md.volumeHistory.length ≤ 1000 ∧
  md.bidVolume.length ≤ 1000 ∧ md.askVolume.length ≤ 1000 ∧
  md.timeStamps.length ≤ 1000 ∧ md.highPrices.length ≤ 1000 ∧
  md.lowPrices.length ≤ 1000

lemma capInvariant_AddTick (md : MarketData) (t : TickData)
    (h : capInvariant md) : capInvariant (AddTick md t) := by
  obtain ⟨hsz, h1, h2, h3, h4, h5, h6, h7⟩ := h
  unfold AddTick capInvariant
  dsimp only
  split_ifs <;>
    refine ⟨hsz, ?_, ?_, ?_, ?_, ?_, ?_, ?_⟩ <;>
    (try rw [hsz]) <;>
    first
      | exact addToLimitedSlice_length_le _ _ _ (by omega) (by assumption)
      | assumption

lemma capInvariant_foldl (md : MarketData) (ticks : List TickData)
    (h : capInvariant md) : capInvariant (List.foldl AddTick md ticks) := by
  induction ticks generalizing md with
  | nil => exact h
  | cons t ts ih => exact ih (AddTick md t) (capInvariant_AddTick md t h)

/-- Claim C5 — For every sequence of `AddTick` calls from a fresh store,
every history sequence has length at most the capacity 1000; and an
insertion into a sequence already at capacity removes exactly the single
oldest element, preserving the order of the rest (FIFO), before appending
the new one. -/
theorem history_capacity_fifo :
    (∀ ticks : List TickData,
      (List.foldl AddTick NewMarketData ticks).priceHistory.length ≤ 1000 ∧
      (List.foldl AddTick NewMarketData ticks).volumeHistory.length ≤ 1000 ∧
      (List.foldl AddTick NewMarketData ticks).bidVolume.length ≤ 1000 ∧
      (List.foldl AddTick NewMarketData ticks).askVolume.length ≤ 1000 ∧
      (List.foldl AddTick NewMarketData ticks).timeStamps.length ≤ 1000 ∧
      (List.foldl AddTick NewMarketData ticks).highPrices.length ≤ 1000 ∧
      (List.foldl AddTick NewMarketData ticks).lowPrices.length ≤ 1000) ∧
    (∀ (l : List ℝ) (v : ℝ), l.length = 1000 →
      addToLimitedSlice 1000 l v = l.tail ++ [v]) := by
  constructor
  · intro ticks
    have h0 : capInvariant NewMarketData := by
      refine ⟨rfl, ?_, ?_, ?_, ?_, ?_, ?_, ?_⟩ <;> decide
    exact (capInvariant_foldl NewMarketData ticks h0).2
  · intro l v h
    unfold addToLimitedSlice
    rw [if_pos (le_of_eq h.symm), List.drop_one]

/-- Witness for `history_capacity_fifo`: eviction at capacity on a
concrete full sequence. -/
theorem history_capacity_fifo_witness :
    addToLimitedSlice 1000 (List.replicate 1000 (0 : ℝ)) 1 =
      (List.replicate 1000 (0 : ℝ)).tail ++ [1] := by
  exact history_capacity_fifo.2 (List.replicate 1000 (0 : ℝ)) 1
    (List.length_replicate 1000 0)

/-! ## Claim C10: lazy one-time precision inference -/

/-- Follows the claim's (spec's) words, for the refinement comparison:
"integerDigits is the number of digits before the decimal point" — the
DIGITS of the integer part of the formatted price, the minus sign NOT
counted. -/
def specIntegerDigits (p : ℝ) : ℕ :=
  digitsLen (⌊|p| * 1000000 + 1 / 2⌋ / 1000000).toNat

/-- Follows the claim's words: "decimal digits = clamp(6 − integerDigits,
1, 8)". -/
def specInferredRoundNum (p : ℝ) : ℕ :=
  (max 1 (min 8 (6 - (specIntegerDigits p : ℤ)))).toNat

/-- Claim C10 (amended) — On the first `AddTick` the rounding precision is
inferred exactly once from the first observed price as
`clamp(6 − L, 1, 8)` where `L` is the number of CHARACTERS before the
decimal point in the formatted price — for a negative price this counts
the leading minus sign, so it exceeds the claim's "number of digits" by
one; for positive prices it coincides with the claim's formula.  The
inferred precision lands in `[1, 8]`, hence is nonzero, so every
subsequent `AddTick` keeps it unchanged (no re-inference) and rounds the
appended price to it; only `Reset()` returns the precision to the
uninferred state 0. -/
theorem precision_inference_once :
    (∀ t : TickData, (AddTick NewMarketData t).roundNum = inferredRoundNum t.Price) ∧
    (∀ p : ℝ, 1 ≤ inferredRoundNum p ∧ inferredRoundNum p ≤ 8) ∧
    (∀ (md : MarketData) (t : TickData), md.roundNum ≠ 0 →
      (AddTick md t).roundNum = md.roundNum ∧
      (AddTick md t).priceHistory =
        addToLimitedSlice md.maxSize md.priceHistory (roundPrice md.roundNum t.Price)) ∧
    (∀ md : MarketData, (Reset md).roundNum = 0) ∧
    (∀ p : ℝ, 0 < p → inferredRoundNum p = specInferredRoundNum p) := by
  refine ⟨?_, ?_, ?_, ?_, ?_⟩
  · intro t
    simp [AddTick, NewMarketData]
  · intro p
    unfold inferredRoundNum
    omega
  · intro md t h
    unfold AddTick
    rw [if_neg h]
    exact ⟨rfl, rfl⟩
  · intro md
    rfl
  · intro p hp
    unfold inferredRoundNum specInferredRoundNum fmtIntLen specIntegerDigits
    rw [if_neg (not_lt.mpr hp.le)]
    simp

/-- Claim C10 counterexample — first observed price `-1234.5`: the code
formats it as `"-1234.500000"` and counts 5 characters before the point
(sign included), inferring precision `clamp(6 − 5, 1, 8) = 1`; the claim's
formula with integerDigits = 4 digits gives `clamp(6 − 4, 1, 8) = 2`. -/
theorem precision_negative_price_refuted :
    (AddTick NewMarketData ⟨-1234.5, 1, true, 0⟩).roundNum = 1 ∧
    specInferredRoundNum (-1234.5) = 2 ∧
    (AddTick NewMarketData ⟨-1234.5, 1, true, 0⟩).roundNum ≠
      specInferredRoundNum (-1234.5) := by
  have habs : |(-1234.5 : ℝ)| = 1234.5 := by
    rw [abs_of_nonpos (by norm_num)]; norm_num
  have hfl : (⌊|(-1234.5 : ℝ)| * 1000000 + 1 / 2⌋ : ℤ) = 1234500000 := by
    rw [habs]; norm_num
  have hdiv : ((1234500000 : ℤ) / 1000000).toNat = 1234 := by decide
  have hlog : Nat.log 10 1234 = 3 :=
    Nat.log_eq_of_pow_le_of_lt_pow (by norm_num) (by norm_num)
  have hdl : digitsLen 1234 = 4 := by rw [digitsLen, hlog]
  have hspec : specInferredRoundNum (-1234.5) = 2 := by
    unfold specInferredRoundNum specIntegerDigits
    rw [hfl, hdiv, hdl]
    decide
  have hfil : fmtIntLen (-1234.5) = 5 := by
    unfold fmtIntLen
    dsimp only
    rw [if_pos (by norm_num : (-1234.5 : ℝ) < 0), hfl, hdiv, hdl]
  have hcode : (AddTick NewMarketData ⟨-1234.5, 1, true, 0⟩).roundNum = 1 := by
    have h1 : (AddTick NewMarketData ⟨-1234.5, 1, true, 0⟩).roundNum =
        inferredRoundNum (-1234.5) := by
      simp [AddTick, NewMarketData]
    rw [h1, inferredRoundNum, hfil]
    decide
  exact ⟨hcode, hspec, by rw [hcode, hspec]; decide⟩

/-- Witness for `precision_inference_once`: for the positive first price
`1234.5` the code's inference and the claim's digit formula agree. -/
theorem precision_inference_once_witness :
    inferredRoundNum (1234.5 : ℝ) = specInferredRoundNum (1234.5 : ℝ) := by
  exact precision_inference_once.2.2.2.2 1234.5 (by norm_num)

/-! ## Claim C9: ranges of RelativeStrength and OrderImbalance -/

/-- The gains accumulator and the losses accumulator are both nonnegative. -/
lemma gainsLosses_nonneg (l : List ℝ) :
    0 ≤ (gainsLosses l).1 ∧ 0 ≤ (gainsLosses l).2 := by
  induction l with
  | nil => exact ⟨le_refl 0, le_refl 0⟩
  | cons r rest ih =>
    unfold gainsLosses
    dsimp only
    split_ifs with hr <;> refine ⟨?_, ?_⟩ <;> dsimp only
    · linarith [ih.1]
    · exact ih.2
    · exact ih.1
    · push_neg at hr
      linarith [ih.2]

/-- Claim C9 (amended) — `RelativeStrength` always lies in `[0, 1]`, with
the stated `0.5` defaults for fewer than 2 returns or zero
gains-plus-losses; `OrderImbalance` lies in `[0, 1]` PROVIDED all stored
volumes are nonnegative (the store accepts arbitrary float volumes
unvalidated, and a negative volume pushes it outside the interval), with
the stated `0.5` default for zero total volume. -/
theorem rs_oi_ranges :
    (∀ returns : List ℝ,
      0 ≤ calculateRelativeStrength returns ∧ calculateRelativeStrength returns ≤ 1) ∧
    (∀ returns : List ℝ, returns.length < 2 → calculateRelativeStrength returns = 0.5) ∧
    (∀ returns : List ℝ,
      (gainsLosses (returns.drop (returns.length - min 500 returns.length))).1 +
        (gainsLosses (returns.drop (returns.length - min 500 returns.length))).2 = 0 →
      calculateRelativeStrength returns = 0.5) ∧
    (∀ bidVolume askVolume : List ℝ,
      (∀ v ∈ bidVolume, 0 ≤ v) → (∀ v ∈ askVolume, 0 ≤ v) →
      0 ≤ calculateOrderImbalance bidVolume askVolume ∧
        calculateOrderImbalance bidVolume askVolume ≤ 1) ∧
    (∀ bidVolume askVolume : List ℝ, bidVolume.sum + askVolume.sum = 0 →
      calculateOrderImbalance bidVolume askVolume = 0.5) := by
  refine ⟨?_, ?_, ?_, ?_, ?_⟩
  · intro returns
    unfold calculateRelativeStrength
    dsimp only
    split_ifs with h1 h2
    · norm_num
    · norm_num
    · obtain ⟨hg, hl⟩ := gainsLosses_nonneg
        (returns.drop (returns.length - min 500 returns.length))

      have hpos : 0 <
          (gainsLosses (returns.drop (returns.length - min 500 returns.length))).1 +
          (gainsLosses (returns.drop (returns.length - min 500 returns.length))).2 :=
        lt_of_le_of_ne (by linarith) (Ne.symm h2)
      constructor
      · exact div_nonneg hg (le_of_lt hpos)
      · rw [div_le_one hpos]
        linarith
  · intro returns h
    unfold calculateRelativeStrength
    rw [if_pos h]
  · intro returns h
    unfold calculateRelativeStrength
    dsimp only
    split_ifs with h1
    · rfl
    · rfl
  · intro bid ask hb ha
    unfold calculateOrderImbalance
    dsimp only
    have hbs : 0 ≤ bid.sum := List.sum_nonneg hb
    have has : 0 ≤ ask.sum := List.sum_nonneg ha
    split_ifs with h0
    · norm_num
    · have hpos : 0 < bid.sum + ask.sum := lt_of_le_of_ne (by linarith) (Ne.symm h0)
      exact ⟨div_nonneg hbs (le_of_lt hpos), by rw [div_le_one hpos]; linarith⟩
  · intro bid ask h
    unfold calculateOrderImbalance
    dsimp only
    rw [if_pos h]

/-- Claim C9 counterexample — the histories bid volume `[3]`, ask volume
`[-1]` (a negative volume is accepted unvalidated by `AddTick`): the total
is `2 ≠ 0`, so `OrderImbalance = 3/2`, outside `[0, 1]`. -/
theorem oi_range_refuted :
    calculateOrderImbalance [3] [-1] = 3 / 2 ∧
    ¬(calculateOrderImbalance [3] [-1] ≤ 1) := by
  norm_num [calculateOrderImbalance]

/-- Witness for `rs_oi_ranges`: concrete nonnegative volume histories. -/
theorem rs_oi_ranges_witness :
    0 ≤ calculateOrderImbalance [1] [2] ∧ calculateOrderImbalance [1] [2] ≤ 1 := by
  exact rs_oi_ranges.2.2.2.1 [1] [2]
    (by intro v hv; rw [List.mem_singleton] at hv; rw [hv]; norm_num)
    (by intro v hv; rw [List.mem_singleton] at hv; rw [hv]; norm_num)

/-! ## Claim C7: the warmed-up flag is a one-way latch -/

lemma runEvents_nil (s : MarketData × Analyzer) : runEvents s [] = s := rfl

lemma runEvents_cons (s : MarketData × Analyzer) (e : Event) (es : List Event) :
    runEvents s (e :: es) = runEvents (eventStep s e) es := rfl

lemma runEvents_append (s : MarketData × Analyzer) (es es' : List Event) :
    runEvents s (es ++ es') = runEvents (runEvents s es) es' :=
  List.foldl_append eventStep s es es'

lemma calculateMetrics_warmup_fields (a : Analyzer) (md : MarketData) :
    (calculateMetrics a md).warmupTicks = a.warmupTicks ∧
    (calculateMetrics a md).warmupComplete = a.warmupComplete := by
  unfold calculateMetrics
  dsimp only
  split_ifs <;> exact ⟨rfl, rfl⟩

lemma ProcessTick_warmupTicks (a : Analyzer) (md : MarketData) :
    (ProcessTick a md).1.warmupTicks = a.warmupTicks := by
  unfold ProcessTick
  dsimp only
  split_ifs with h1 h2
  · rfl
  · show (calculateMetrics a md).warmupTicks = a.warmupTicks
    exact (calculateMetrics_warmup_fields a md).1
  · exact (calculateMetrics_warmup_fields a md).1

/-- The flag after one `ProcessTick`: it was already set, or the history
has at least 20 entries (so metrics were computed) and at least
`warmupTicks` entries. -/
lemma ProcessTick_flag (a : Analyzer) (md : MarketData) :
    ((ProcessTick a md).1.warmupComplete = true ↔
      (a.warmupComplete = true ∨
        (20 ≤ md.priceHistory.length ∧ a.warmupTicks ≤ md.priceHistory.length))) := by
  unfold ProcessTick
  dsimp only
  split_ifs with h1 h2
  · constructor
    · intro h
      exact Or.inl h
    · rintro (h | ⟨h20, _⟩)
      · exact h
      · exact absurd h20 (by omega)
  · constructor
    · intro _
      refine Or.inr ⟨by omega, ?_⟩
      have := h2.2
      rwa [(calculateMetrics_warmup_fields a md).1] at this
    · intro _
      rfl
  · rw [(calculateMetrics_warmup_fields a md).2]
    constructor
    · intro h
      exact Or.inl h
    · rintro (h | ⟨h20, hwt⟩)
      · exact h
      · by_cases hb : (calculateMetrics a md).warmupComplete = true
        · rw [← (calculateMetrics_warmup_fields a md).2]
          exact hb
        · exfalso
          exact h2 ⟨hb, by rw [(calculateMetrics_warmup_fields a md).1]; exact hwt⟩

lemma eventStep_warmupTicks (s : MarketData × Analyzer) (e : Event) :
    (eventStep s e).2.warmupTicks = s.2.warmupTicks := by
  cases e with
  | tick t => exact ProcessTick_warmupTicks s.2 (AddTick s.1 t)
  | reset => rfl

lemma eventStep_flag_mono (s : MarketData × Analyzer) (e : Event)
    (h : s.2.warmupComplete = true) : (eventStep s e).2.warmupComplete = true := by
  cases e with
  | tick t => exact (ProcessTick_flag s.2 (AddTick s.1 t)).mpr (Or.inl h)
  | reset => exact h

lemma runEvents_flag_mono (s : MarketData × Analyzer) (es : List Event)
    (h : s.2.warmupComplete = true) :
    (runEvents s es).2.warmupComplete = true := by
  induction es generalizing s with
  | nil => exact h
  | cons e rest ih => exact ih (eventStep s e) (eventStep_flag_mono s e h)

/-- Characterisation of the flag along any event trace: it is set exactly
when it was set initially or some nonempty prefix of the trace ends in a
state whose price history reached the warmup threshold. -/
lemma runEvents_flag_iff (s : MarketData × Analyzer) (es : List Event)
    (hwt : 20 ≤ s.2.warmupTicks) :
    ((runEvents s es).2.warmupComplete = true ↔
      (s.2.warmupComplete = true ∨
        ∃ n, 1 ≤ n ∧ n ≤ es.length ∧
          s.2.warmupTicks ≤ (runEvents s (es.take n)).1.priceHistory.length)) := by
  induction es generalizing s with
  | nil =>
    constructor
    · intro h
      exact Or.inl h
    · rintro (h | ⟨n, h1, h2, _⟩)
      · exact h
      · simp only [List.length_nil] at h2
        omega
  | cons e rest ih =>
    rw [runEvents_cons,
      ih (eventStep s e) (by rw [eventStep_warmupTicks]; exact hwt)]
    rw [eventStep_warmupTicks]
    constructor
    · rintro (hf | ⟨n, h1, h2, h3⟩)
      · cases e with
        | tick t =>
          rcases (ProcessTick_flag s.2 (AddTick s.1 t)).mp hf with h | h
          · exact Or.inl h
          · exact Or.inr ⟨1, le_refl 1, by simp, h.2⟩
        | reset => exact Or.inl hf
      · exact Or.inr ⟨n + 1, by omega, by simp only [List.length_cons]; omega, h3⟩
    · rintro (hf | ⟨n, h1, h2, h3⟩)
      · exact Or.inl (eventStep_flag_mono s e hf)
      · obtain ⟨m, rfl⟩ : ∃ m, n = m + 1 := ⟨n - 1, by omega⟩
        rcases Nat.eq_zero_or_pos m with hm | hm
        · subst hm
          cases e with
          | tick t =>
            left
            have h3' : s.2.warmupTicks ≤ (AddTick s.1 t).priceHistory.length := h3
            exact (ProcessTick_flag s.2 (AddTick s.1 t)).mpr (Or.inr ⟨by omega, h3'⟩)
          | reset =>
            exfalso
            have h0 :
                (runEvents s (List.take (0 + 1) (Event.reset :: rest))).1.priceHistory.length
                = 0 := rfl
            omega
        · right
          exact ⟨m, by omega, by simp only [List.length_cons] at h2; omega, h3⟩

lemma AddTick_maxSize (md : MarketData) (t : TickData) :
    (AddTick md t).maxSize = md.maxSize := by
  unfold AddTick
  dsimp only
  split_ifs <;> rfl

lemma AddTick_length (md : MarketData) (t : TickData)
    (h : md.priceHistory.length < md.maxSize) :
    (AddTick md t).priceHistory.length = md.priceHistory.length + 1 := by
  unfold AddTick
  dsimp only
  split_ifs <;>
    · show (addToLimitedSlice _ _ _).length = _
      unfold addToLimitedSlice
      rw [if_neg (by
        try dsimp only
        omega)]
      simp only [List.length_append, List.length_singleton]

lemma run_ticks_length (t : TickData) : ∀ (k : ℕ) (s : MarketData × Analyzer),
    s.1.priceHistory.length + k ≤ s.1.maxSize →
    (runEvents s (List.replicate k (Event.tick t))).1.priceHistory.length
      = s.1.priceHistory.length + k := by
  intro k
  induction k with
  | zero =>
    intro s _
    rfl
  | succ n ih =>
    intro s h
    rw [List.replicate_succ, runEvents_cons]
    have hlen : (eventStep s (Event.tick t)).1.priceHistory.length =
        s.1.priceHistory.length + 1 := AddTick_length s.1 t (by omega)
    have hms : (eventStep s (Event.tick t)).1.maxSize = s.1.maxSize :=
      AddTick_maxSize s.1 t
    rw [ih (eventStep s (Event.tick t)) (by rw [hlen, hms]; omega), hlen]
    omega

/-- Claim C7 — From the initial pipeline state (warmup threshold 300), the
warmed-up flag is true after an event trace exactly when some nonempty
prefix of the trace ends with the price history holding at least 300
entries; and once true it remains true under any further events,
including `Reset()` which shrinks the history to zero (one-way latch). -/
theorem warmup_one_way_latch :
    (∀ es : List Event,
      ((runEvents initState es).2.warmupComplete = true ↔
        ∃ n, 1 ≤ n ∧ n ≤ es.length ∧
          300 ≤ (runEvents initState (es.take n)).1.priceHistory.length)) ∧
    (∀ es es' : List Event,
      (runEvents initState es).2.warmupComplete = true →
      (runEvents initState (es ++ es')).2.warmupComplete = true) := by
  constructor
  · intro es
    rw [runEvents_flag_iff initState es (by norm_num [initState, NewAnalyzer])]
    constructor
    · rintro (h | h)
      · exact absurd h (by simp [initState, NewAnalyzer])
      · exact h
    · intro h
      exact Or.inr h
  · intro es es' h
    rw [runEvents_append]
    exact runEvents_flag_mono (runEvents initState es) es' h

/-- Witness for `warmup_one_way_latch`: 300 ticks set the flag and a
subsequent `Reset()` (history shrinks to 0) leaves it set. -/
theorem warmup_one_way_latch_witness :
    (runEvents initState
      (List.replicate 300 (Event.tick ⟨1, 0, true, 0⟩) ++
        [Event.reset])).2.warmupComplete = true := by
  apply warmup_one_way_latch.2
  refine (warmup_one_way_latch.1 _).mpr
    ⟨300, by norm_num, by rw [List.length_replicate], ?_⟩
  have htake : List.take 300 (List.replicate 300 (Event.tick (⟨1, 0, true, 0⟩ : TickData))) =
      List.replicate 300 (Event.tick ⟨1, 0, true, 0⟩) := by
    rw [List.take_replicate]
    norm_num
  rw [htake, run_ticks_length ⟨1, 0, true, 0⟩ 300 initState (by norm_num [initState, NewMarketData])]
  norm_num [initState, NewMarketData]

/-! ## Claim C8: sign of TrendStrength on monotone price windows -/

/-- Double-sum expansion of the regression numerator:
`∑ᵢ∑ⱼ (fᵢ − fⱼ)(gᵢ − gⱼ) = 2(n·∑fg − ∑f·∑g)`. -/
lemma double_sum_identity (n : ℕ) (f g : ℕ → ℝ) :
    ∑ i ∈ Finset.range n, ∑ j ∈ Finset.range n, (f i - f j) * (g i - g j) =
      2 * ((n : ℝ) * (∑ i ∈ Finset.range n, f i * g i) -
        (∑ i ∈ Finset.range n, f i) * (∑ i ∈ Finset.range n, g i)) := by
  have h1 : ∀ i, ∑ j ∈ Finset.range n, (f i - f j) * (g i - g j) =
      (n : ℝ) * (f i * g i) - f i * (∑ j ∈ Finset.range n, g j)
        - (∑ j ∈ Finset.range n, f j) * g i + ∑ j ∈ Finset.range n, f j * g j := by
    intro i
    have e : ∀ j ∈ Finset.range n, (f i - f j) * (g i - g j)
        = f i * g i - f i * g j - f j * g i + f j * g j := fun j _ => by ring
    rw [Finset.sum_congr rfl e]
    simp only [Finset.sum_add_distrib, Finset.sum_sub_distrib, Finset.sum_const,
      Finset.card_range, nsmul_eq_mul, ← Finset.mul_sum, ← Finset.sum_mul]
  rw [Finset.sum_congr rfl fun i _ => h1 i]
  simp only [Finset.sum_add_distrib, Finset.sum_sub_distrib, Finset.sum_const,
    Finset.card_range, nsmul_eq_mul, ← Finset.mul_sum, ← Finset.sum_mul]
  ring

/-- If `f` and `g` vary together (never oppositely) on `0..n-1` and move
strictly together at the pair `(0, 1)`, the regression numerator
`n·∑fg − ∑f·∑g` is strictly positive. -/
lemma double_sum_pos (n : ℕ) (hn : 2 ≤ n) (f g : ℕ → ℝ)
    (hmono : ∀ i j, i < n → j < n → 0 ≤ (f i - f j) * (g i - g j))
    (h01 : 0 < (f 0 - f 1) * (g 0 - g 1)) :
    0 < (n : ℝ) * (∑ i ∈ Finset.range n, f i * g i) -
      (∑ i ∈ Finset.range n, f i) * (∑ i ∈ Finset.range n, g i) := by
  have hid := double_sum_identity n f g
  have hpos : 0 < ∑ i ∈ Finset.range n,
      ∑ j ∈ Finset.range n, (f i - f j) * (g i - g j) := by
    apply Finset.sum_pos'
    · intro i hi
      apply Finset.sum_nonneg
      intro j hj
      exact hmono i j (Finset.mem_range.mp hi) (Finset.mem_range.mp hj)
    · refine ⟨0, Finset.mem_range.mpr (by omega), ?_⟩
      apply Finset.sum_pos'
      · intro j hj
        exact hmono 0 j (by omega) (Finset.mem_range.mp hj)
      · exact ⟨1, Finset.mem_range.mpr (by omega), h01⟩
  rw [hid] at hpos
  linarith

lemma x_map_range_getD (n i : ℕ) (h : i < n) :
    (((List.range n).map fun k : ℕ => (k : ℝ)).getD i 0) = i := by
  have hl : i < ((List.range n).map fun k : ℕ => (k : ℝ)).length := by
    rw [List.length_map, List.length_range]
    exact h
  rw [List.getD_eq_getElem _ _ hl, List.getElem_map, List.getElem_range]

lemma getD_lt_of_pairwise (w : List ℝ) (hp : w.Pairwise (· < ·)) (i j : ℕ)
    (hij : i < j) (hj : j < w.length) : w.getD i 0 < w.getD j 0 := by
  rw [List.getD_eq_getElem w 0 (lt_trans hij hj), List.getD_eq_getElem w 0 hj]
  exact List.pairwise_iff_getElem.mp hp i j (lt_trans hij hj) hj hij

/-- `calculateTrendStrength`, unfolded on a history of length ≥ 30 into
its regression components over the last-30 window. -/
lemma calculateTrendStrength_formula (prices : List ℝ) (h30 : 30 ≤ prices.length) :
    calculateTrendStrength prices =
      (let w := prices.drop (prices.length - 30)
       let N := (30 : ℝ) * (∑ i ∈ Finset.range 30, (i : ℝ) * w.getD i 0) -
         (∑ i ∈ Finset.range 30, (i : ℝ)) * (∑ i ∈ Finset.range 30, w.getD i 0)
       let D1 := (30 : ℝ) * (∑ i ∈ Finset.range 30, (i : ℝ) * (i : ℝ)) -
         (∑ i ∈ Finset.range 30, (i : ℝ)) * (∑ i ∈ Finset.range 30, (i : ℝ))
       let D2 := (30 : ℝ) * (∑ i ∈ Finset.range 30, w.getD i 0 * w.getD i 0) -
         (∑ i ∈ Finset.range 30, w.getD i 0) * (∑ i ∈ Finset.range 30, w.getD i 0)
       let r := if Real.sqrt (D1 * D2) = 0 then 0 else N / Real.sqrt (D1 * D2)
       (N / D1) * r * r * (30 / (w.sum / 30)) * 100000) := by
  have hlen : (prices.drop (prices.length - 30)).length = 30 := by
    rw [List.length_drop]
    omega
  unfold calculateTrendStrength linearRegression mean
  rw [if_neg (not_lt.mpr h30)]
  dsimp only
  simp only [List.length_map, List.length_range, hlen, Nat.cast_ofNat]
  rw [if_neg (by norm_num)]
  dsimp only
  have e1 : ∑ i ∈ Finset.range 30,
      (((List.range 30).map fun k : ℕ => (k : ℝ)).getD i 0) =
      ∑ i ∈ Finset.range 30, (i : ℝ) :=
    Finset.sum_congr rfl fun i hi => x_map_range_getD 30 i (Finset.mem_range.mp hi)
  have e2 : ∑ i ∈ Finset.range 30,
      (((List.range 30).map fun k : ℕ => (k : ℝ)).getD i 0) *
        (prices.drop (prices.length - 30)).getD i 0 =
      ∑ i ∈ Finset.range 30, (i : ℝ) * (prices.drop (prices.length - 30)).getD i 0 :=
    Finset.sum_congr rfl fun i hi => by
      rw [x_map_range_getD 30 i (Finset.mem_range.mp hi)]
  have e3 : ∑ i ∈ Finset.range 30,
      (((List.range 30).map fun k : ℕ => (k : ℝ)).getD i 0) *
        (((List.range 30).map fun k : ℕ => (k : ℝ)).getD i 0) =
      ∑ i ∈ Finset.range 30, (i : ℝ) * (i : ℝ) :=
    Finset.sum_congr rfl fun i hi => by
      rw [x_map_range_getD 30 i (Finset.mem_range.mp hi)]
  rw [e1, e2, e3]

/-- On a strictly increasing positive history of length ≥ 30 the computed
trend strength is strictly positive. -/
lemma trendStrength_pos_of_chain (prices : List ℝ) (h30 : 30 ≤ prices.length)
    (hpos : ∀ p ∈ prices, 0 < p) (hch : List.Chain' (· < ·) prices) :
    0 < calculateTrendStrength prices := by
  have hlen : (prices.drop (prices.length - 30)).length = 30 := by
    rw [List.length_drop]
    omega
  set w := prices.drop (prices.length - 30) with hw
  have hwp : w.Pairwise (· < ·) :=
    (List.chain'_iff_pairwise.mp hch).sublist (List.drop_sublist _ _)
  have hwpos : ∀ p ∈ w, 0 < p := fun p hp => hpos p (List.mem_of_mem_drop hp)
  have hmono : ∀ i j : ℕ, i < 30 → j < 30 →
      0 ≤ ((i : ℝ) - (j : ℝ)) * (w.getD i 0 - w.getD j 0) := by
    intro i j hi hj
    rcases lt_trichotomy i j with h | h | h
    · have hc : (i : ℝ) - j < 0 := by
        have hij : (i : ℝ) < j := by exact_mod_cast h
        linarith
      have hg : w.getD i 0 - w.getD j 0 < 0 := by
        have := getD_lt_of_pairwise w hwp i j h (by omega)
        linarith
      exact le_of_lt (mul_pos_of_neg_of_neg hc hg)
    · subst h
      simp
    · have hc : (0 : ℝ) < (i : ℝ) - j := by
        have hij : (j : ℝ) < i := by exact_mod_cast h
        linarith
      have hg : 0 < w.getD i 0 - w.getD j 0 := by
        have := getD_lt_of_pairwise w hwp j i h (by omega)
        linarith
      exact le_of_lt (mul_pos hc hg)
  have hN : 0 < (30 : ℝ) * (∑ i ∈ Finset.range 30, (i : ℝ) * w.getD i 0) -
      (∑ i ∈ Finset.range 30, (i : ℝ)) * (∑ i ∈ Finset.range 30, w.getD i 0) := by
    have := double_sum_pos 30 (by omega) (fun i => (i : ℝ)) (fun i => w.getD i 0)
      hmono
      (by
        have h01 : w.getD 0 0 < w.getD 1 0 :=
          getD_lt_of_pairwise w hwp 0 1 (by omega) (by omega)
        have : ((0 : ℕ) : ℝ) - ((1 : ℕ) : ℝ) < 0 := by norm_num
        exact mul_pos_of_neg_of_neg this (by linarith))
    convert this using 2
  have hD1 : 0 < (30 : ℝ) * (∑ i ∈ Finset.range 30, (i : ℝ) * (i : ℝ)) -
      (∑ i ∈ Finset.range 30, (i : ℝ)) * (∑ i ∈ Finset.range 30, (i : ℝ)) := by
    have := double_sum_pos 30 (by omega) (fun i => (i : ℝ)) (fun i => (i : ℝ))
      (fun i j _ _ => mul_self_nonneg _)
      (by norm_num)
    convert this using 2
  have hD2 : 0 < (30 : ℝ) * (∑ i ∈ Finset.range 30, w.getD i 0 * w.getD i 0) -
      (∑ i ∈ Finset.range 30, w.getD i 0) * (∑ i ∈ Finset.range 30, w.getD i 0) := by
    have := double_sum_pos 30 (by omega) (fun i => w.getD i 0) (fun i => w.getD i 0)
      (fun i j _ _ => mul_self_nonneg _)
      (by
        have h01 : w.getD 0 0 < w.getD 1 0 :=
          getD_lt_of_pairwise w hwp 0 1 (by omega) (by omega)
        have : w.getD 0 0 - w.getD 1 0 < 0 := by linarith
        exact mul_pos_of_neg_of_neg this this)
    convert this using 2
  have hsum : 0 < w.sum := by
    apply List.sum_pos
    · exact hwpos
    · intro hnil
      rw [hnil] at hlen
      simp at hlen
  rw [calculateTrendStrength_formula prices h30]
  dsimp only
  rw [← hw]
  have hsq : 0 < Real.sqrt
      (((30 : ℝ) * (∑ i ∈ Finset.range 30, (i : ℝ) * (i : ℝ)) -
        (∑ i ∈ Finset.range 30, (i : ℝ)) * (∑ i ∈ Finset.range 30, (i : ℝ))) *
       ((30 : ℝ) * (∑ i ∈ Finset.range 30, w.getD i 0 * w.getD i 0) -
        (∑ i ∈ Finset.range 30, w.getD i 0) * (∑ i ∈ Finset.range 30, w.getD i 0))) :=
    Real.sqrt_pos.mpr (mul_pos hD1 hD2)
  rw [if_neg (ne_of_gt hsq)]
  exact mul_pos (mul_pos (mul_pos (mul_pos (div_pos hN hD1) (div_pos hN hsq))
    (div_pos hN hsq)) (div_pos (by norm_num) (div_pos hsum (by norm_num)))) (by norm_num)

lemma getD_gt_of_pairwise (w : List ℝ) (hp : w.Pairwise (· > ·)) (i j : ℕ)
    (hij : i < j) (hj : j < w.length) : w.getD j 0 < w.getD i 0 := by
  rw [List.getD_eq_getElem w 0 (lt_trans hij hj), List.getD_eq_getElem w 0 hj]
  exact List.pairwise_iff_getElem.mp hp i j (lt_trans hij hj) hj hij

/-- On a strictly decreasing positive history of length ≥ 30 the computed
trend strength is strictly negative. -/
lemma trendStrength_neg_of_chain (prices : List ℝ) (h30 : 30 ≤ prices.length)
    (hpos : ∀ p ∈ prices, 0 < p) (hch : List.Chain' (· > ·) prices) :
    calculateTrendStrength prices < 0 := by
  have hlen : (prices.drop (prices.length - 30)).length = 30 := by
    rw [List.length_drop]
    omega
  set w := prices.drop (prices.length - 30) with hw
  have hwp : w.Pairwise (· > ·) :=
    (List.chain'_iff_pairwise.mp hch).sublist (List.drop_sublist _ _)
  have hwpos : ∀ p ∈ w, 0 < p := fun p hp => hpos p (List.mem_of_mem_drop hp)
  have hmono : ∀ i j : ℕ, i < 30 → j < 30 →
      0 ≤ ((i : ℝ) - (j : ℝ)) * (-(w.getD i 0) - -(w.getD j 0)) := by
    intro i j hi hj
    rcases lt_trichotomy i j with h | h | h
    · have hc : (i : ℝ) - j < 0 := by
        have hij : (i : ℝ) < j := by exact_mod_cast h
        linarith
      have hg : -(w.getD i 0) - -(w.getD j 0) < 0 := by
        have := getD_gt_of_pairwise w hwp i j h (by omega)
        linarith
      exact le_of_lt (mul_pos_of_neg_of_neg hc hg)
    · subst h
      simp
    · have hc : (0 : ℝ) < (i : ℝ) - j := by
        have hij : (j : ℝ) < i := by exact_mod_cast h
        linarith
      have hg : 0 < -(w.getD i 0) - -(w.getD j 0) := by
        have := getD_gt_of_pairwise w hwp j i h (by omega)
        linarith
      exact le_of_lt (mul_pos hc hg)
  have hN : (30 : ℝ) * (∑ i ∈ Finset.range 30, (i : ℝ) * w.getD i 0) -
      (∑ i ∈ Finset.range 30, (i : ℝ)) * (∑ i ∈ Finset.range 30, w.getD i 0) < 0 := by
    have h01 : w.getD 1 0 < w.getD 0 0 :=
      getD_gt_of_pairwise w hwp 0 1 (by omega) (by omega)
    have hN' := double_sum_pos 30 (by omega) (fun i => (i : ℝ))
      (fun i => -(w.getD i 0)) hmono
      (by
        have hc : ((0 : ℕ) : ℝ) - ((1 : ℕ) : ℝ) < 0 := by norm_num
        have hg : -(w.getD 0 0) - -(w.getD 1 0) < 0 := by linarith
        exact mul_pos_of_neg_of_neg hc hg)
    simp only [mul_neg, Finset.sum_neg_distrib] at hN'
    have hc : (((30 : ℕ) : ℝ)) = (30 : ℝ) := by norm_num
    rw [hc] at hN'
    linarith
  have hD1 : 0 < (30 : ℝ) * (∑ i ∈ Finset.range 30, (i : ℝ) * (i : ℝ)) -
      (∑ i ∈ Finset.range 30, (i : ℝ)) * (∑ i ∈ Finset.range 30, (i : ℝ)) := by
    have := double_sum_pos 30 (by omega) (fun i => (i : ℝ)) (fun i => (i : ℝ))
      (fun i j _ _ => mul_self_nonneg _)
      (by norm_num)
    convert this using 2
  have hD2 : 0 < (30 : ℝ) * (∑ i ∈ Finset.range 30, w.getD i 0 * w.getD i 0) -
      (∑ i ∈ Finset.range 30, w.getD i 0) * (∑ i ∈ Finset.range 30, w.getD i 0) := by
    have := double_sum_pos 30 (by omega) (fun i => w.getD i 0) (fun i => w.getD i 0)
      (fun i j _ _ => mul_self_nonneg _)
      (by
        have h01 : w.getD 1 0 < w.getD 0 0 :=
          getD_gt_of_pairwise w hwp 0 1 (by omega) (by omega)
        have hg : 0 < w.getD 0 0 - w.getD 1 0 := by linarith
        exact mul_pos hg hg)
    convert this using 2
  have hsum : 0 < w.sum := by
    apply List.sum_pos
    · exact hwpos
    · intro hnil
      rw [hnil] at hlen
      simp at hlen
  rw [calculateTrendStrength_formula prices h30]
  dsimp only
  rw [← hw]
  have hsq : 0 < Real.sqrt
      (((30 : ℝ) * (∑ i ∈ Finset.range 30, (i : ℝ) * (i : ℝ)) -
        (∑ i ∈ Finset.range 30, (i : ℝ)) * (∑ i ∈ Finset.range 30, (i : ℝ))) *
       ((30 : ℝ) * (∑ i ∈ Finset.range 30, w.getD i 0 * w.getD i 0) -
        (∑ i ∈ Finset.range 30, w.getD i 0) * (∑ i ∈ Finset.range 30, w.getD i 0))) :=
    Real.sqrt_pos.mpr (mul_pos hD1 hD2)
  rw [if_neg (ne_of_gt hsq)]
  have hslope : (30 : ℝ) * (∑ i ∈ Finset.range 30, (i : ℝ) * w.getD i 0) -
      (∑ i ∈ Finset.range 30, (i : ℝ)) * (∑ i ∈ Finset.range 30, w.getD i 0) < 0 := hN
  have hr : _ / Real.sqrt _ < 0 := div_neg_of_neg_of_pos hN hsq
  have h1 : 0 < (((30 : ℝ) * (∑ i ∈ Finset.range 30, (i : ℝ) * w.getD i 0) -
      (∑ i ∈ Finset.range 30, (i : ℝ)) * (∑ i ∈ Finset.range 30, w.getD i 0)) /
      ((30 : ℝ) * (∑ i ∈ Finset.range 30, (i : ℝ) * (i : ℝ)) -
        (∑ i ∈ Finset.range 30, (i : ℝ)) * (∑ i ∈ Finset.range 30, (i : ℝ)))) *
      (((30 : ℝ) * (∑ i ∈ Finset.range 30, (i : ℝ) * w.getD i 0) -
        (∑ i ∈ Finset.range 30, (i : ℝ)) * (∑ i ∈ Finset.range 30, w.getD i 0)) /
        Real.sqrt _) :=
    mul_pos_of_neg_of_neg (div_neg_of_neg_of_pos hN hD1) (div_neg_of_neg_of_pos hN hsq)
  refine mul_neg_of_neg_of_pos ?_ (by norm_num)
  refine mul_neg_of_neg_of_pos ?_ (div_pos (by norm_num) (div_pos hsum (by norm_num)))
  exact mul_neg_of_pos_of_neg h1 (div_neg_of_neg_of_pos hN hsq)

/-- Price lists used as concrete witnesses: `1, 2, …, k`. -/
def ascendingPrices (k : ℕ) : List ℝ :=
  (List.range k).map fun i : ℕ => (i : ℝ) + 1

lemma ascendingPrices_length (k : ℕ) : (ascendingPrices k).length = k := by
  rw [ascendingPrices, List.length_map, List.length_range]

lemma ascendingPrices_chain (k : ℕ) : List.Chain' (· < ·) (ascendingPrices k) := by
  rw [ascendingPrices, List.chain'_iff_pairwise]
  refine List.Pairwise.map _ ?_ (List.pairwise_lt_range k)
  intro a b h
  have : (a : ℝ) < b := by exact_mod_cast h
  linarith

lemma ascendingPrices_pos (k : ℕ) : ∀ p ∈ ascendingPrices k, 0 < p := by
  intro p hp
  rw [ascendingPrices, List.mem_map] at hp
  obtain ⟨i, _, rfl⟩ := hp
  positivity

/-- Claim C8 — For every history whose prices are a strictly increasing
sequence of at least 30 positive values, the computed TrendStrength is
strictly positive; for every strictly decreasing such sequence it is
strictly negative. -/
theorem trend_sign_of_monotone (prices : List ℝ) (h30 : 30 ≤ prices.length)
    (hpos : ∀ p ∈ prices, 0 < p) :
    (List.Chain' (· < ·) prices → 0 < calculateTrendStrength prices) ∧
    (List.Chain' (· > ·) prices → calculateTrendStrength prices < 0) :=
  ⟨trendStrength_pos_of_chain prices h30 hpos,
    trendStrength_neg_of_chain prices h30 hpos⟩

/-- Witness for `trend_sign_of_monotone`: the strictly increasing history
`1, 2, …, 30`. -/
theorem trend_sign_of_monotone_witness :
    0 < calculateTrendStrength (ascendingPrices 30) := by
  exact (trend_sign_of_monotone (ascendingPrices 30)
    (by rw [ascendingPrices_length]) (ascendingPrices_pos 30)).1
    (ascendingPrices_chain 30)

/-! ## Claim C6: determinism of replay after `Reset()` -/

/-- The six metric fields that are pure functions of the store contents —
everything except `AvgTrendStrength`, which also depends on the analyzer's
trend-strength window. -/
def stripAvg (m : MarketMetrics) : ℝ × ℝ × ℝ × ℝ × ℝ × ℝ :=
  (m.RealizedVolatility, m.ATR, m.RelativeStrength, m.OrderImbalance,
    m.TrendStrength, m.MER)

/-- The high/low sequences always march in step with the price sequence. -/
def lenInv (md : MarketData) : Prop :=
  md.highPrices.length = md.priceHistory.length ∧
  md.lowPrices.length = md.priceHistory.length

lemma addToLimitedSlice_length_congr {α β : Type} (n : ℕ) (l1 : List α)
    (l2 : List β) (v1 : α) (v2 : β) (h : l1.length = l2.length) :
    (addToLimitedSlice n l1 v1).length = (addToLimitedSlice n l2 v2).length := by
  unfold addToLimitedSlice
  rw [h]
  split_ifs <;>
    simp only [List.length_append, List.length_drop, List.length_singleton, h]

lemma lenInv_AddTick (md : MarketData) (t : TickData) (h : lenInv md) :
    lenInv (AddTick md t) := by
  obtain ⟨h1, h2⟩ := h
  unfold AddTick
  dsimp only
  split_ifs <;>
    exact ⟨addToLimitedSlice_length_congr _ _ _ _ _ h1,
      addToLimitedSlice_length_congr _ _ _ _ _ h2⟩

/-- `calculateATR` ignores its realized-volatility fallback argument as
soon as all three sequences have at least 14 entries. -/
lemma calculateATR_congr (rv1 rv2 : ℝ) (h l p : List ℝ)
    (hh : 14 ≤ h.length) (hl : 14 ≤ l.length) (hp : 14 ≤ p.length) :
    calculateATR rv1 h l p = calculateATR rv2 h l p := by
  unfold calculateATR
  rw [if_neg (by omega), if_neg (by omega)]

/-- The six `stripAvg` fields computed by `calculateMetrics` depend only on
the store, not on the analyzer state. -/
lemma calculateMetrics_strip (a b : Analyzer) (md : MarketData)
    (h20 : 20 ≤ md.priceHistory.length) (hinv : lenInv md) :
    stripAvg (calculateMetrics a md).metrics =
    stripAvg (calculateMetrics b md).metrics := by
  obtain ⟨h1, h2⟩ := hinv
  have hne : ¬md.priceHistory.length < 2 := by omega
  unfold calculateMetrics
  simp only [if_neg hne]
  dsimp only [stripAvg]
  rw [calculateATR_congr a.metrics.RealizedVolatility b.metrics.RealizedVolatility
    md.highPrices md.lowPrices md.priceHistory (by omega) (by omega) (by omega)]

/-- The per-tick metric snapshot, restricted to the `stripAvg` fields,
does not depend on the analyzer state. -/
lemma ProcessTick_strip (a b : Analyzer) (md : MarketData) (hinv : lenInv md) :
    Option.map stripAvg (ProcessTick a md).2 =
    Option.map stripAvg (ProcessTick b md).2 := by
  unfold ProcessTick
  dsimp only
  split_ifs with hc h1 h2 h2
  · rfl
  · show some (stripAvg (calculateMetrics a md).metrics) =
      some (stripAvg (calculateMetrics b md).metrics)
    rw [calculateMetrics_strip a b md (by omega) hinv]
  · show some (stripAvg (calculateMetrics a md).metrics) =
      some (stripAvg (calculateMetrics b md).metrics)
    rw [calculateMetrics_strip a b md (by omega) hinv]
  · show some (stripAvg (calculateMetrics a md).metrics) =
      some (stripAvg (calculateMetrics b md).metrics)
    rw [calculateMetrics_strip a b md (by omega) hinv]
  · show some (stripAvg (calculateMetrics a md).metrics) =
      some (stripAvg (calculateMetrics b md).metrics)
    rw [calculateMetrics_strip a b md (by omega) hinv]

lemma runTicks_cons (s : MarketData × Analyzer) (t : TickData) (ts : List TickData) :
    runTicks s (t :: ts) =
      ((runTicks (pipelineStep s t).1 ts).1,
        (pipelineStep s t).2 :: (runTicks (pipelineStep s t).1 ts).2) := rfl

/-- The snapshot sequences of two runs from the same store but any two
analyzer states agree on all fields except `AvgTrendStrength`. -/
lemma runTicks_strip (ts : List TickData) : ∀ (md : MarketData) (a b : Analyzer),
    lenInv md →
    ((runTicks (md, a) ts).2).map (Option.map stripAvg) =
    ((runTicks (md, b) ts).2).map (Option.map stripAvg) := by
  induction ts with
  | nil =>
    intro md a b _
    rfl
  | cons t ts ih =>
    intro md a b hinv
    rw [runTicks_cons, runTicks_cons]
    simp only [List.map_cons]
    have hmd : (pipelineStep (md, a) t).1.1 = AddTick md t := rfl
    have hmd' : (pipelineStep (md, b) t).1.1 = AddTick md t := rfl
    have hinv' : lenInv (AddTick md t) := lenInv_AddTick md t hinv
    congr 1
    · exact ProcessTick_strip a b (AddTick md t) hinv'
    · exact ih (AddTick md t) (pipelineStep (md, a) t).1.2 (pipelineStep (md, b) t).1.2 hinv'

lemma runTicks_market (ts : List TickData) : ∀ s : MarketData × Analyzer,
    (runTicks s ts).1.1 = List.foldl AddTick s.1 ts := by
  induction ts with
  | nil => intro s; rfl
  | cons t ts ih =>
    intro s
    rw [runTicks_cons]
    exact ih (pipelineStep s t).1

lemma foldl_AddTick_maxSize (ts : List TickData) : ∀ md : MarketData,
    (List.foldl AddTick md ts).maxSize = md.maxSize := by
  induction ts with
  | nil => intro md; rfl
  | cons t ts ih =>
    intro md
    rw [List.foldl_cons, ih (AddTick md t), AddTick_maxSize]

/-- `Reset()` returns any store with the default capacity to the initial
store state. -/
lemma Reset_eq_new (md : MarketData) (h : md.maxSize = 1000) :
    Reset md = NewMarketData := by
  cases md
  unfold Reset NewMarketData
  dsimp only at h ⊢
  rw [h]

/-- Claim C6 (amended) — Replaying an identical tick sequence after
`Reset()` yields metric snapshots identical in all fields EXCEPT possibly
`AvgTrendStrength`: `Reset()` clears only the store, while the analyzer's
bounded trend-strength window survives the reset and feeds into the second
run's `AvgTrendStrength`. -/
theorem replay_deterministic_except_avg (ts : List TickData) :
    ((runTicks (Reset (runTicks initState ts).1.1,
        (runTicks initState ts).1.2) ts).2).map (Option.map stripAvg) =
    ((runTicks initState ts).2).map (Option.map stripAvg) := by
  have hms : (runTicks initState ts).1.1.maxSize = 1000 := by
    rw [runTicks_market]
    exact foldl_AddTick_maxSize ts NewMarketData
  rw [Reset_eq_new _ hms]
  exact runTicks_strip ts NewMarketData (runTicks initState ts).1.2 NewAnalyzer ⟨rfl, rfl⟩

lemma goRound_intCast (z : ℤ) : goRound ((z : ℤ) : ℝ) = z := by
  unfold goRound
  split_ifs with h
  · rw [Int.floor_int_add]
    norm_num
  · have hc : -((z : ℤ) : ℝ) = (((-z : ℤ) : ℤ) : ℝ) := by push_cast; ring
    rw [hc, Int.floor_int_add]
    norm_num

lemma roundPrice_intCast (n : ℕ) (z : ℤ) : roundPrice n ((z : ℤ) : ℝ) = z := by
  unfold roundPrice
  have h : ((z : ℤ) : ℝ) * 10 ^ n = (((z * 10 ^ n : ℤ) : ℤ) : ℝ) := by push_cast; ring
  rw [h, goRound_intCast]
  have hne : (10 : ℝ) ^ n ≠ 0 := by positivity
  push_cast
  field_simp

lemma roundPrice_cast_add_one (n j : ℕ) : roundPrice n ((j : ℝ) + 1) = (j : ℝ) + 1 := by
  have hc : ((j : ℝ) + 1) = (((j + 1 : ℤ) : ℤ) : ℝ) := by push_cast; ring
  rw [hc, roundPrice_intCast]

/-- The tick sequence with prices `1, 2, …, k`, zero volume, ask side. -/
def incTicks (k : ℕ) : List TickData :=
  (List.range k).map fun i : ℕ => ⟨(i : ℝ) + 1, 0, true, 0⟩

/-- The expected store state after the first `j` ticks of `incTicks`. -/
def incMarket (j : ℕ) : MarketData :=
  { priceHistory := ascendingPrices j
    volumeHistory := List.replicate j 0
    bidVolume := []
    askVolume := List.replicate j 0
    timeStamps := List.replicate j 0
    highPrices := ascendingPrices j
    lowPrices := List.replicate j 1
    maxSize := 1000
    roundNum := if j = 0 then 0 else 5
    prevPrice := if j = 0 then 0 else 1 }

lemma incTicks_succ (k : ℕ) :
    incTicks (k + 1) = incTicks k ++ [⟨(k : ℝ) + 1, 0, true, 0⟩] := by
  rw [incTicks, incTicks, List.range_succ, List.map_append]
  rfl

lemma ascendingPrices_succ (k : ℕ) :
    ascendingPrices (k + 1) = ascendingPrices k ++ [(k : ℝ) + 1] := by
  rw [ascendingPrices, ascendingPrices, List.range_succ, List.map_append]
  rfl

lemma trendStrength_zero_of_lt30 (l : List ℝ) (h : l.length < 30) :
    calculateTrendStrength l = 0 := by
  unfold calculateTrendStrength
  rw [if_pos h]

lemma runTicks_append (ts1 ts2 : List TickData) : ∀ s : MarketData × Analyzer,
    runTicks s (ts1 ++ ts2) =
      ((runTicks (runTicks s ts1).1 ts2).1,
        (runTicks s ts1).2 ++ (runTicks (runTicks s ts1).1 ts2).2) := by
  induction ts1 with
  | nil => intro s; rfl
  | cons t ts ih =>
    intro s
    rw [List.cons_append, runTicks_cons, ih (pipelineStep s t).1, runTicks_cons]
    simp [runTicks_cons]

lemma addToLimitedSlice_append {α : Type} (n : ℕ) (l : List α) (v : α)
    (h : l.length < n) : addToLimitedSlice n l v = l ++ [v] := by
  unfold addToLimitedSlice
  rw [if_neg (by omega)]

lemma ascendingPrices_zero : ascendingPrices 0 = [] := rfl

lemma inferredRoundNum_one : inferredRoundNum (((0 : ℕ) : ℝ) + 1) = 5 := by
  have hone : ((0 : ℕ) : ℝ) + 1 = 1 := by norm_num
  rw [hone]
  unfold inferredRoundNum fmtIntLen
  dsimp only
  have hfl : (⌊|(1 : ℝ)| * 1000000 + 1 / 2⌋ : ℤ) = 1000000 := by norm_num
  rw [if_neg (by norm_num : ¬(1 : ℝ) < 0), hfl]
  have hdiv : ((1000000 : ℤ) / 1000000).toNat = 1 := by decide
  rw [hdiv]
  have hd : digitsLen 1 = 1 := by
    rw [digitsLen]
    simp
  rw [hd]
  decide

/-- One pipeline store step on the concrete ascending tick sequence. -/
lemma AddTick_incMarket (j : ℕ) (hj : j < 1000) :
    AddTick (incMarket j) ⟨(j : ℝ) + 1, 0, true, 0⟩ = incMarket (j + 1) := by
  have hlen : (ascendingPrices j).length = j := ascendingPrices_length j
  rcases Nat.eq_zero_or_pos j with rfl | hjpos
  · unfold AddTick
    rw [if_pos (show (incMarket 0).roundNum = 0 from rfl)]
    dsimp only [incMarket, ascendingPrices_zero]
    rw [inferredRoundNum_one, roundPrice_cast_add_one]
    simp only [MarketData.mk.injEq]
    norm_num [addToLimitedSlice_append, ascendingPrices_succ, ascendingPrices_zero]
  · obtain ⟨k, rfl⟩ : ∃ k, j = k + 1 := ⟨j - 1, by omega⟩
    unfold AddTick
    rw [if_neg (show ¬(incMarket (k + 1)).roundNum = 0 by
      dsimp only [incMarket]
      rw [if_neg (by omega : ¬k + 1 = 0)]
      omega)]
    have hrn : (incMarket (k + 1)).roundNum = 5 := by
      dsimp only [incMarket]
      rw [if_neg (by omega : ¬k + 1 = 0)]
    dsimp only [incMarket]
    rw [if_neg (by omega : ¬k + 1 = 0), roundPrice_cast_add_one]
    have hhigh : (ascendingPrices (k + 1)).getLastD 0 = (k : ℝ) + 1 := by
      rw [ascendingPrices_succ]
      exact List.getLastD_concat 0 ((k : ℝ) + 1) (ascendingPrices k)
    have hlow : (List.replicate (k + 1) (1 : ℝ)).getLastD 0 = 1 := by
      rw [List.replicate_succ']
      exact List.getLastD_concat 0 1 (List.replicate k (1 : ℝ))
    rw [hhigh, hlow]
    have hc1 : ((ascendingPrices (k + 1)) = [] ∨ (k : ℝ) + 1 < ((k + 1 : ℕ) : ℝ) + 1) := by
      right
      push_cast
      linarith
    rw [if_pos hc1]
    have hc2 : ¬((List.replicate (k + 1) (1 : ℝ)) = [] ∨ ((k + 1 : ℕ) : ℝ) + 1 < 1) := by
      push_neg
      constructor
      · intro h
        have := congrArg List.length h
        simp at this
      · push_cast
        linarith
    rw [if_neg hc2]
    have h1000 : (ascendingPrices (k + 1)).length < 1000 := by
      rw [ascendingPrices_length]
      omega
    have h1000' : (List.replicate (k + 1) (0 : ℝ)).length < 1000 := by
      rw [List.length_replicate]
      omega
    have h1000'' : (List.replicate (k + 1) (1 : ℝ)).length < 1000 := by
      rw [List.length_replicate]
      omega
    have e1 : addToLimitedSlice 1000 (ascendingPrices (k + 1)) (((k + 1 : ℕ) : ℝ) + 1) =
        ascendingPrices (k + 1 + 1) := by
      rw [addToLimitedSlice_append _ _ _ h1000]
      conv_rhs => rw [ascendingPrices_succ (k + 1)]
    have e2 : addToLimitedSlice 1000 (List.replicate (k + 1) (0 : ℝ)) 0 =
        List.replicate (k + 1 + 1) (0 : ℝ) := by
      rw [addToLimitedSlice_append _ _ _ h1000']
      conv_rhs => rw [List.replicate_succ' (k + 1) (0 : ℝ)]
    have e3 : addToLimitedSlice 1000 (List.replicate (k + 1) (1 : ℝ)) 1 =
        List.replicate (k + 1 + 1) (1 : ℝ) := by
      rw [addToLimitedSlice_append _ _ _ h1000'']
      conv_rhs => rw [List.replicate_succ' (k + 1) (1 : ℝ)]
    simp only [eq_self_iff_true, if_true, e1, e2, e3,
      if_neg (show ¬k + 1 + 1 = 0 by omega), if_neg (show ¬k + 1 = 0 by omega)]

lemma pipelineStep_market (s : MarketData × Analyzer) (t : TickData) :
    (pipelineStep s t).1.1 = AddTick s.1 t := rfl

/-- The trend-strength window after one pipeline step, as a function of
the previous window and the updated store only. -/
lemma pipelineStep_window (s : MarketData × Analyzer) (t : TickData) :
    ((pipelineStep s t).1.2).trendStrengthWindow =
      if (AddTick s.1 t).priceHistory.length < 20 then s.2.trendStrengthWindow
      else
        (if 20 ≤ s.2.trendStrengthWindow.length then s.2.trendStrengthWindow.drop 1
          else s.2.trendStrengthWindow) ++
          [calculateTrendStrength (AddTick s.1 t).priceHistory] := by
  unfold pipelineStep ProcessTick calculateMetrics
  dsimp only
  split_ifs <;> first | rfl | omega

/-- The snapshot emitted by one pipeline step that computes metrics:
its `AvgTrendStrength` as a function of the previous window and the
updated store. -/
lemma pipelineStep_out (s : MarketData × Analyzer) (t : TickData)
    (h20 : ¬(AddTick s.1 t).priceHistory.length < 20) :
    ∃ m : MarketMetrics, (pipelineStep s t).2 = some m ∧
      m.AvgTrendStrength =
        (if 7 ≤ ((if 20 ≤ s.2.trendStrengthWindow.length then s.2.trendStrengthWindow.drop 1
              else s.2.trendStrengthWindow) ++
              [calculateTrendStrength (AddTick s.1 t).priceHistory]).length then
          ((if 20 ≤ s.2.trendStrengthWindow.length then s.2.trendStrengthWindow.drop 1
              else s.2.trendStrengthWindow) ++
              [calculateTrendStrength (AddTick s.1 t).priceHistory]).sum /
            ((((if 20 ≤ s.2.trendStrengthWindow.length then s.2.trendStrengthWindow.drop 1
              else s.2.trendStrengthWindow) ++
              [calculateTrendStrength (AddTick s.1 t).priceHistory]).length : ℕ) : ℝ)
        else 0) := by
  unfold pipelineStep ProcessTick calculateMetrics
  dsimp only
  rw [if_neg h20, if_neg (by omega : ¬(AddTick s.1 t).priceHistory.length < 2)]
  dsimp only
  split_ifs <;> exact ⟨_, rfl, rfl⟩

/-- State characterisation of a run over the first `j` ascending ticks,
from a fresh store and any analyzer whose window stays under the cap. -/
lemma run_inc (a : Analyzer) : ∀ j, j ≤ 30 →
    a.trendStrengthWindow.length + (min j 29 - 19) ≤ 19 →
    (runTicks (incMarket 0, a) (incTicks j)).1.1 = incMarket j ∧
    ((runTicks (incMarket 0, a) (incTicks j)).1.2).trendStrengthWindow =
      a.trendStrengthWindow ++
        (List.replicate (min j 29 - 19) (0 : ℝ) ++
          (if j = 30 then [calculateTrendStrength (ascendingPrices 30)]
            else ([] : List ℝ))) := by
  intro j
  induction j with
  | zero =>
    intro _ _
    refine ⟨rfl, ?_⟩
    show a.trendStrengthWindow = _
    simp
  | succ k ih =>
    intro hk hw
    have hk' : k ≤ 30 := by omega
    have hw' : a.trendStrengthWindow.length + (min k 29 - 19) ≤ 19 := by omega
    obtain ⟨ihm, ihw⟩ := ih hk' hw'
    rw [incTicks_succ, runTicks_append]
    dsimp only
    have hstep : AddTick (runTicks (incMarket 0, a) (incTicks k)).1.1
        ⟨(k : ℝ) + 1, 0, true, 0⟩ = incMarket (k + 1) := by
      rw [ihm]
      exact AddTick_incMarket k (by omega)
    constructor
    · show (pipelineStep (runTicks (incMarket 0, a) (incTicks k)).1
        ⟨(k : ℝ) + 1, 0, true, 0⟩).1.1 = incMarket (k + 1)
      rw [pipelineStep_market, hstep]
    · show ((pipelineStep (runTicks (incMarket 0, a) (incTicks k)).1
        ⟨(k : ℝ) + 1, 0, true, 0⟩).1.2).trendStrengthWindow = _
      rw [pipelineStep_window, hstep]
      have hlen1 : (incMarket (k + 1)).priceHistory.length = k + 1 := by
        dsimp only [incMarket]
        exact ascendingPrices_length (k + 1)
      have hwinlen : ((runTicks (incMarket 0, a) (incTicks k)).1.2).trendStrengthWindow.length =
          a.trendStrengthWindow.length + (min k 29 - 19) := by
        rw [ihw]
        have hne : ¬k = 30 := by omega
        simp [List.length_append, hne]
      by_cases hc : k + 1 < 20
      · rw [if_pos (by rw [hlen1]; exact hc), ihw]
        have h0 : min k 29 - 19 = 0 := by omega
        have h0' : min (k + 1) 29 - 19 = 0 := by omega
        have hne : ¬k = 30 := by omega
        have hne' : ¬k + 1 = 30 := by omega
        simp [h0, h0', hne, hne']
      · rw [if_neg (by rw [hlen1]; exact hc)]
        rw [if_neg (by rw [hwinlen]; omega)]
        rw [ihw]
        dsimp only [incMarket]
        by_cases h30 : k + 1 = 30
        · have hk29 : k = 29 := by omega
          subst hk29
          have hmin : min 29 29 - 19 = 10 := by omega
          have hmin' : min 30 29 - 19 = 10 := by omega
          norm_num [hmin, hmin', List.append_assoc]
        · have hts : calculateTrendStrength (ascendingPrices (k + 1)) = 0 := by
            apply trendStrength_zero_of_lt30
            rw [ascendingPrices_length]
            omega
          rw [hts]
          have hne : ¬k = 30 := by omega
          have hmin : min (k + 1) 29 - 19 = (min k 29 - 19) + 1 := by omega
          rw [hmin, List.replicate_succ' (min k 29 - 19) (0 : ℝ)]
          simp [hne, h30, List.append_assoc]

lemma incTicks_length (k : ℕ) : (incTicks k).length = k := by
  rw [incTicks, List.length_map, List.length_range]

lemma incMarket_zero : incMarket 0 = NewMarketData := by
  unfold incMarket NewMarketData
  simp [ascendingPrices]

lemma incTicks_take (j k : ℕ) (h : j ≤ k) : (incTicks k).take j = incTicks j := by
  rw [incTicks, incTicks, ← List.map_take, List.take_range, min_eq_left h]

lemma incTicks_getD (k i : ℕ) (h : i < k) (d : TickData) :
    (incTicks k).getD i d = ⟨(i : ℝ) + 1, 0, true, 0⟩ := by
  show (((List.range k).map fun i : ℕ =>
    (⟨(i : ℝ) + 1, 0, true, 0⟩ : TickData)).getD i d) = _
  have hl : i < (((List.range k).map fun i : ℕ =>
      (⟨(i : ℝ) + 1, 0, true, 0⟩ : TickData))).length := by
    rw [List.length_map, List.length_range]
    exact h
  rw [List.getD_eq_getElem _ _ hl, List.getElem_map, List.getElem_range]

/-- The `j`-th emitted snapshot of a run is the snapshot of the pipeline
step taken from the state after the first `j` ticks. -/
lemma runTicks_out_getD (ts : List TickData) : ∀ (s : MarketData × Analyzer) (j : ℕ),
    j < ts.length →
    (runTicks s ts).2.getD j none =
      (pipelineStep (runTicks s (ts.take j)).1 (ts.getD j ⟨0, 0, true, 0⟩)).2 := by
  induction ts with
  | nil =>
    intro s j h
    simp at h
  | cons t ts' ih =>
    intro s j h
    cases j with
    | zero => rfl
    | succ j' =>
      rw [runTicks_cons]
      show (runTicks (pipelineStep s t).1 ts').2.getD j' none = _
      rw [ih (pipelineStep s t).1 j' (by simpa using h)]
      rfl

/-- Claim C6 counterexample — the 30 ascending ticks `1, 2, …, 30`:
replaying them after `Reset()` yields a DIFFERENT snapshot sequence.  At
the 20th tick of the replay the analyzer's surviving trend-strength
window (10 zeros and one strictly positive trend strength from the first
run) makes `AvgTrendStrength` strictly positive, while the first run's
20th snapshot had `AvgTrendStrength = 0`. -/
theorem replay_identical_refuted :
    (runTicks (Reset (runTicks initState (incTicks 30)).1.1,
        (runTicks initState (incTicks 30)).1.2) (incTicks 30)).2 ≠
      (runTicks initState (incTicks 30)).2 := by
  have hinit : initState = (incMarket 0, NewAnalyzer) := by
    rw [initState, incMarket_zero]
  have hTS : 0 < calculateTrendStrength (ascendingPrices 30) :=
    trendStrength_pos_of_chain (ascendingPrices 30)
      (by rw [ascendingPrices_length]) (ascendingPrices_pos 30)
      (ascendingPrices_chain 30)
  have hNAw : NewAnalyzer.trendStrengthWindow = [] := rfl
  -- first run, full characterisation
  have h30 := run_inc NewAnalyzer 30 (by omega)
    (by rw [hNAw]; simp)
  rw [← hinit] at h30
  obtain ⟨h30m, h30w⟩ := h30
  -- replay start state
  have hreset : Reset (runTicks initState (incTicks 30)).1.1 = NewMarketData := by
    rw [h30m]
    exact Reset_eq_new (incMarket 30) rfl
  -- states after the first 19 ticks of each run
  have h19a := run_inc NewAnalyzer 19 (by omega) (by rw [hNAw]; simp)
  rw [← hinit] at h19a
  set A1 := (runTicks initState (incTicks 30)).1.2 with hA1
  have hA1w : A1.trendStrengthWindow =
      List.replicate 10 (0 : ℝ) ++ [calculateTrendStrength (ascendingPrices 30)] := by
    rw [hA1, h30w, hNAw]
    simp
  have h19b := run_inc A1 19 (by omega) (by rw [hA1w]; simp)
  -- suppose the outputs were equal; compare the 20th snapshots
  intro heq
  have hel := congrArg (fun l : List (Option MarketMetrics) => l.getD 19 none) heq
  dsimp only at hel
  rw [runTicks_out_getD (incTicks 30) _ 19 (by rw [incTicks_length]; omega),
    runTicks_out_getD (incTicks 30) _ 19 (by rw [incTicks_length]; omega),
    incTicks_take 19 30 (by omega), incTicks_getD 30 19 (by omega)] at hel
  rw [hreset, ← incMarket_zero] at hel
  -- the pipeline step at tick 20 of each run
  have hstep19a : AddTick (runTicks initState (incTicks 19)).1.1
      ⟨((19 : ℕ) : ℝ) + 1, 0, true, 0⟩ = incMarket 20 := by
    rw [h19a.1]
    exact AddTick_incMarket 19 (by omega)
  have hstep19b : AddTick (runTicks (incMarket 0, A1) (incTicks 19)).1.1
      ⟨((19 : ℕ) : ℝ) + 1, 0, true, 0⟩ = incMarket 20 := by
    rw [h19b.1]
    exact AddTick_incMarket 19 (by omega)
  have hlen20 : (incMarket 20).priceHistory.length = 20 := by
    dsimp only [incMarket]
    exact ascendingPrices_length 20
  have hTS20 : calculateTrendStrength (incMarket 20).priceHistory = 0 := by
    apply trendStrength_zero_of_lt30
    rw [hlen20]
    omega
  obtain ⟨m1, hm1eq, hm1avg⟩ :=
    pipelineStep_out (runTicks initState (incTicks 19)).1
      ⟨((19 : ℕ) : ℝ) + 1, 0, true, 0⟩ (by rw [hstep19a, hlen20]; omega)
  obtain ⟨m2, hm2eq, hm2avg⟩ :=
    pipelineStep_out (runTicks (incMarket 0, A1) (incTicks 19)).1
      ⟨((19 : ℕ) : ℝ) + 1, 0, true, 0⟩ (by rw [hstep19b, hlen20]; omega)
  rw [hm1eq, hm2eq] at hel
  have hmm : m2 = m1 := by
    simpa using hel
  -- first run's 20th snapshot: window [0], average 0
  have hw1 : ((runTicks initState (incTicks 19)).1.2).trendStrengthWindow = [] := by
    rw [h19a.2, hNAw]
    simp
  rw [hstep19a, hw1, hTS20] at hm1avg
  simp at hm1avg
  -- replay's 20th snapshot: window of 12 entries summing to the positive
  -- trend strength of the first run
  have hw2 : ((runTicks (incMarket 0, A1) (incTicks 19)).1.2).trendStrengthWindow =
      List.replicate 10 (0 : ℝ) ++ [calculateTrendStrength (ascendingPrices 30)] := by
    rw [h19b.2, hA1w]
    simp
  rw [hstep19b, hw2, hTS20] at hm2avg
  have hwin : ¬(20 ≤ (List.replicate 10 (0 : ℝ) ++
      [calculateTrendStrength (ascendingPrices 30)]).length) := by simp
  simp only [if_neg hwin] at hm2avg
  rw [if_pos (show 7 ≤ ((List.replicate 10 (0 : ℝ) ++
      [calculateTrendStrength (ascendingPrices 30)]) ++ [(0 : ℝ)]).length by simp)] at hm2avg
  have hsum : ((List.replicate 10 (0 : ℝ) ++
      [calculateTrendStrength (ascendingPrices 30)]) ++ [(0 : ℝ)]).sum =
      calculateTrendStrength (ascendingPrices 30) := by
    simp
  have hlen' : ((List.replicate 10 (0 : ℝ) ++
      [calculateTrendStrength (ascendingPrices 30)]) ++ [(0 : ℝ)]).length = 12 := by
    simp
  rw [hsum, hlen'] at hm2avg
  have hz : calculateTrendStrength (ascendingPrices 30) / ((12 : ℕ) : ℝ) = 0 := by
    rw [← hm2avg, hmm, hm1avg]
  rcases div_eq_zero_iff.mp hz with h | h
  · exact absurd h (ne_of_gt hTS)
  · norm_num at h

end TradeSpec

end
